import Mathlib

/-!
Verification of the chameleon-core schema compiler.

Shallow embedding of `chameleon-core/src`:
  * `ast/mod.rs`            — the Schema / Entity / Field / Relation data model;
  * `migration/type_map.rs` — PostgreSQL type and default mapping;
  * `migration/generator.rs`— dependency-ordered DDL generation;
  * `typechecker/*.rs`      — the semantic checking passes;
  * `parser/mod.rs`         — diagnostic snippet rendering.

Rust `HashMap<String, V>` fields are embedded as association lists
`List (String × V)`; iteration visits entries in list order (the Rust map
iteration order is unspecified, and no verified claim depends on it).
Rust `Vec<T>` is `List T`, pushes append at the end.  Recursive traversals
that Rust runs on the call stack are embedded with an explicit fuel
argument; `none` marks fuel exhaustion and separate lemmas show the fuel
chosen by the top-level entry points is always sufficient.
-/

namespace Chameleon

/-! ## AST model (`ast/mod.rs`) -/

inductive FieldType where
  | uuid
  | string
  | int
  | decimal
  | bool
  | timestamp
  | float
  | vector (dim : Nat)
  | array (elem : FieldType)
deriving DecidableEq

inductive DefaultValue where
  | now
  | uuidv4
  | literal (s : String)
deriving DecidableEq

inductive BackendAnnotation where
  | oltp
  | cache
  | olap
  | vector
  | ml
deriving DecidableEq

inductive RelationKind where
  | hasOne
  | hasMany
  | belongsTo
  | manyToMany
deriving DecidableEq

structure Field where
  name : String
  field_type : FieldType
  nullable : Bool
  unique : Bool
  primary_key : Bool
  default : Option DefaultValue
  backend : Option BackendAnnotation
deriving DecidableEq

structure Relation where
  name : String
  kind : RelationKind
  target_entity : String
  foreign_key : Option String
  through : Option String
deriving DecidableEq

/-- `Entity` from `ast/mod.rs`: `fields` and `relations` are
`HashMap<String, _>` in Rust, embedded as association lists.  The struct
fields are public in Rust, so a constructible entity may hold entries whose
key differs from the stored `Field.name`; `add_field` below is the helper
the rest of the crate uses, and it keys by name. -/
structure Entity where
  name : String
  fields : List (String × Field)
  relations : List (String × Relation)
deriving DecidableEq

structure Schema where
  entities : List Entity
deriving DecidableEq

/-- `Schema::get_entity`: first entity with the given name. -/
def Schema.get_entity (s : Schema) (name : String) : Option Entity :=
  s.entities.find? (fun e => e.name = name)

/-- `Entity::add_field`: `HashMap::insert` keyed by `field.name`
(replaces any previous entry with that key). -/
def Entity.add_field (e : Entity) (f : Field) : Entity :=
  { e with fields := (e.fields.filter (fun p => p.1 ≠ f.name)) ++ [(f.name, f)] }

/-- `Entity::add_relation`, keyed by `relation.name`. -/
def Entity.add_relation (e : Entity) (r : Relation) : Entity :=
  { e with relations := (e.relations.filter (fun p => p.1 ≠ r.name)) ++ [(r.name, r)] }

/-! ## Type and default mapping (`migration/type_map.rs`) -/

/-- `to_postgres_type` from `migration/type_map.rs`. -/
def to_postgres_type : FieldType → String
  | .uuid => "UUID"
  | .string => "VARCHAR"
  | .int => "INTEGER"
  | .decimal => "NUMERIC"
  | .bool => "BOOLEAN"
  | .timestamp => "TIMESTAMP"
  | .float => "DOUBLE PRECISION"
  | .vector dim => "VECTOR(" ++ toString dim ++ ")"
  | .array inner => to_postgres_type inner ++ "[]"

/-- `to_postgres_default` from `migration/type_map.rs`. -/
def to_postgres_default : DefaultValue → String
  | .now => "NOW()"
  | .uuidv4 => "gen_random_uuid()"
  | .literal s => "'" ++ s ++ "'"

/-! ## Table naming (external collaborator) -/

/-- Modelled from the spec: `crate::sql::naming::entity_to_table` is imported
by `migration/generator.rs` but its source is not under `src/`.  The spec
(§1, §6) describes table naming as an external collaborator performing
pluralization and case conversion, and the migration tests fix
`User → users`, `Order → orders`, `OrderItem → order_items`:
snake-case the entity name and append an `s`. -/
def entity_to_table (name : String) : String :=
  let snake := name.data.foldl
    (fun acc c =>
      if c.isUpper then
        (if acc.isEmpty then acc ++ [c.toLower] else acc ++ ['_', c.toLower])
      else acc ++ [c])
    []
  ⟨snake⟩ ++ "s"

/-! ## Migration generator (`migration/generator.rs`) -/

inductive MigrationError where
  | circularDependency (name : String)
  | unknownEntity (name : String)
deriving DecidableEq

structure Migration where
  sql : String
  statements : List (String × String)
deriving DecidableEq

/-- One column of a `CREATE TABLE` statement, exactly the `push_str`
sequence of `generate_create_table` (lines 43–69 of `generator.rs`). -/
def render_column (f : Field) : String :=
  let col := "    " ++ f.name ++ " " ++ to_postgres_type f.field_type
  let col := if f.primary_key then col ++ " PRIMARY KEY" else col
  let col := if !f.nullable && !f.primary_key then col ++ " NOT NULL" else col
  let col := if f.unique then col ++ " UNIQUE" else col
  match f.default with
  | some d => col ++ " DEFAULT " ++ to_postgres_default d
  | none => col

/-- The `FOREIGN KEY` constraints of an entity's statement: the loop at
lines 89–105 of `generator.rs` scans **all** entities of the schema (it has
no self-skip) for HasMany relations targeting `entity`, emitting one
constraint per relation that carries a foreign key.  (The earlier loop at
lines 73–82 skips the entity itself but its body is only a comment, so it
contributes nothing.) -/
def fk_constraints (s : Schema) (entity : Entity) : List String :=
  s.entities.flatMap (fun other =>
    other.relations.filterMap (fun p =>
      if p.2.kind = .hasMany ∧ p.2.target_entity = entity.name then
        p.2.foreign_key.map (fun fk =>
          "    FOREIGN KEY (" ++ fk ++ ") REFERENCES "
            ++ entity_to_table other.name ++ "(id)")
      else none))

/-- `generate_create_table`.  The Rust function returns `Result` but has no
error path (it always returns `Ok`), so it is embedded as a plain `String`. -/
def generate_create_table (entity : Entity) (s : Schema) : String :=
  let columns := entity.fields.map (fun p => render_column p.2)
  let all_parts := columns ++ fk_constraints s entity
  "CREATE TABLE " ++ entity_to_table entity.name ++ " (\n"
    ++ String.intercalate ",\n" all_parts ++ "\n);"

/-- The three `Vec<String>` locals threaded through `topo_sort` by
`&mut` reference. -/
structure TopoState where
  order : List String
  visited : List String
  in_stack : List String
deriving DecidableEq

/-- The sequence of recursive `topo_sort` calls made by the dependency scan
(lines 154–164 of `generator.rs`): for every other entity (self is skipped)
and every relation of it with kind HasMany and target `current`, one call
with that entity's name. -/
def dep_calls (s : Schema) (current : String) : List String :=
  s.entities.flatMap (fun other =>
    if other.name = current then []
    else other.relations.filterMap (fun p =>
      if p.2.kind = .hasMany ∧ p.2.target_entity = current then some other.name
      else none))

/-- The dependency loop of `topo_sort`: run `f` (a `topo_sort` call one
stack frame deeper) on each element in turn, threading the state and
propagating the first error. -/
def run_deps (f : String → TopoState → Option (Except MigrationError TopoState)) :
    List String → TopoState → Option (Except MigrationError TopoState)
  | [], st => some (.ok st)
  | d :: ds, st =>
    match f d st with
    | none => none
    | some (.error e) => some (.error e)
    | some (.ok st') => run_deps f ds st'

/-- `topo_sort` from `generator.rs`, with an explicit fuel argument in
place of the Rust call stack (`none` = fuel exhausted; `topo_fuel` below is
proved sufficient). -/
def topo_sort (s : Schema) : Nat → String → TopoState → Option (Except MigrationError TopoState)
  | 0, _, _ => none
  | fuel + 1, current, st =>
    if current ∈ st.in_stack then some (.error (.circularDependency current))
    else if current ∈ st.visited then some (.ok st)
    else
      match run_deps (topo_sort s fuel) (dep_calls s current)
          { st with in_stack := st.in_stack ++ [current] } with
      | none => none
      | some (.error e) => some (.error e)
      | some (.ok st2) =>
          some (.ok { order := st2.order ++ [current],
                      visited := st2.visited ++ [current],
                      in_stack := st2.in_stack.dropLast })

/-- Fuel used for each root call of `topo_sort`: nesting depth is bounded
by the number of distinct entity names on `in_stack` (sufficiency is proved
in `topo_sort_no_fuel_exhaustion`). -/
def topo_fuel (s : Schema) : Nat := s.entities.length + 1

/-- The root loop of `resolve_creation_order` (lines 125–129). -/
def resolve_roots (s : Schema) : List Entity → TopoState → Option (Except MigrationError TopoState)
  | [], st => some (.ok st)
  | e :: es, st =>
    if e.name ∈ st.visited then resolve_roots s es st
    else
      match topo_sort s (topo_fuel s) e.name st with
      | none => none
      | some (.error err) => some (.error err)
      | some (.ok st') => resolve_roots s es st'

/-- `resolve_creation_order`. -/
def resolve_creation_order (s : Schema) : Option (Except MigrationError (List String)) :=
  match resolve_roots s s.entities ⟨[], [], []⟩ with
  | none => none
  | some (.error e) => some (.error e)
  | some (.ok st) => some (.ok st.order)

/-- `generate_migration`.  The `schema.get_entity(entity_name).unwrap()` at
line 22 is embedded as an `Option` bind: a failed lookup (a Rust panic)
yields `none`, distinct from the `Err` results. -/
def generate_migration (s : Schema) : Option (Except MigrationError Migration) :=
  match resolve_creation_order s with
  | none => none
  | some (.error e) => some (.error e)
  | some (.ok order) =>
    match order.mapM (fun n => (s.get_entity n).map (fun e => (n, generate_create_table e s))) with
    | none => none
    | some statements =>
        some (.ok { sql := String.intercalate "\n\n" (statements.map (fun p => p.2)),
                    statements := statements })

/-! ## Type checker (`typechecker/errors.rs`, `relations.rs`,
`constraints.rs`, `mod.rs`)

`typechecker/relations.rs` addresses `schema.entities` with map operations
(`contains_key`, `get`, `keys`, and `(name, entity)` iteration).  With the
declaration-ordered entity list of `ast/mod.rs` these are embedded as:
iteration in declaration order, `contains_key n` = some entity is named `n`,
`get n` = first entity named `n`, `keys` = the names in declaration order. -/

inductive TypeCheckError where
  | unknownRelationTarget (entity relation target : String)
  | invalidForeignKey (entity relation target foreign_key : String)
  | missingForeignKey (entity relation : String)
  | missingPrimaryKey (entity : String)
  | multiplePrimaryKeys (entity : String) (fields : List String)
  | invalidVectorAnnotation (entity field actual_type : String)
  | annotationOnConstrainedField (entity field constraint annotation : String)
  | circularDependency (cycle : List String)
  | duplicateEntity (entity : String) (first second : Nat)
  | duplicateField (entity field : String)
deriving DecidableEq

/-- Rust `format!("{:?}", field_type)` (derived `Debug` of `FieldType`). -/
def field_type_debug : FieldType → String
  | .uuid => "UUID"
  | .string => "String"
  | .int => "Int"
  | .decimal => "Decimal"
  | .bool => "Bool"
  | .timestamp => "Timestamp"
  | .float => "Float"
  | .vector n => "Vector(" ++ toString n ++ ")"
  | .array t => "Array(" ++ field_type_debug t ++ ")"

/-- Rust `format!("{:?}", annotation).to_lowercase()`. -/
def annotation_debug_lower : BackendAnnotation → String
  | .oltp => "oltp"
  | .cache => "cache"
  | .olap => "olap"
  | .vector => "vector"
  | .ml => "ml"

/-- `check_relations` from `typechecker/relations.rs`.  The `unwrap` at its
line 31 cannot fail (the target was just checked with `contains_key`); the
embedding's `none` branch there is dead code kept for shape. -/
def check_relations (s : Schema) : List TypeCheckError :=
  s.entities.flatMap (fun entity =>
    entity.relations.flatMap (fun p =>
      let relation := p.2
      if ¬ s.entities.any (fun e => e.name = relation.target_entity) then
        [.unknownRelationTarget entity.name relation.name relation.target_entity]
      else if relation.kind = .hasMany ∧ relation.foreign_key = none then
        [.missingForeignKey entity.name relation.name]
      else
        match relation.foreign_key with
        | some fk =>
          match s.get_entity relation.target_entity with
          | some target =>
            if ¬ target.fields.any (fun q => q.1 = fk) then
              [.invalidForeignKey entity.name relation.name relation.target_entity fk]
            else []
          | none => []
        | none => []))

/-- The relation loop of `dfs` from `typechecker/relations.rs`: `f` is a
`dfs` call one stack frame deeper.  On a relation whose target is on the
recursion stack it builds the cycle slice `in_stack[start..] ++ [target]`
and returns it immediately; a cycle returned by a deeper call is also
propagated immediately.  Both early returns **skip** the `in_stack.pop()`
of the enclosing `dfs` frames, exactly as the Rust `return` does. -/
def tc_rels
    (f : String → List String → List String →
      Option (Option (List String) × List String × List String)) :
    List Relation → List String → List String →
    Option (Option (List String) × List String × List String)
  | [], visited, in_stack => some (none, visited, in_stack)
  | r :: rs, visited, in_stack =>
    if r.kind = .belongsTo then tc_rels f rs visited in_stack
    else
      let target := r.target_entity
      if target ∉ visited then
        match f target visited in_stack with
        | none => none
        | some (some cycle, v, stk) => some (some cycle, v, stk)
        | some (none, v, stk) => tc_rels f rs v stk
      else if target ∈ in_stack then
        some (some (in_stack.drop (in_stack.indexOf target) ++ [target]), visited, in_stack)
      else tc_rels f rs visited in_stack

/-- `dfs` from `typechecker/relations.rs` (fuel-explicit; `tc_fuel` below is
proved sufficient).  State is `(visited, in_stack)`; the result carries the
optional cycle and the updated state. -/
def tc_dfs (s : Schema) :
    Nat → String → List String → List String →
    Option (Option (List String) × List String × List String)
  | 0, _, _, _ => none
  | fuel + 1, current, visited, in_stack =>
    let visited := visited ++ [current]
    let in_stack := in_stack ++ [current]
    match s.get_entity current with
    | none => some (none, visited, in_stack.dropLast)
    | some entity =>
      match tc_rels (tc_dfs s fuel) (entity.relations.map (fun p => p.2)) visited in_stack with
      | none => none
      | some (some cycle, v, stk) => some (some cycle, v, stk)
      | some (none, v, stk) => some (none, v, stk.dropLast)

/-- Every string the type checker's DFS can ever visit: entity names and
relation targets. -/
def tc_nodes (s : Schema) : List String :=
  s.entities.map (fun e => e.name)
    ++ s.entities.flatMap (fun e => e.relations.map (fun p => p.2.target_entity))

/-- Fuel for `tc_dfs` root calls (sufficiency proved in
`tc_dfs_no_fuel_exhaustion`). -/
def tc_fuel (s : Schema) : Nat := (tc_nodes s).dedup.length + 1

/-- The root loop of `check_circular_dependencies` (lines 53–59 of
`relations.rs`), threading `visited`/`in_stack` and accumulating errors. -/
def check_circ_loop (s : Schema) :
    List String → List String → List String → List TypeCheckError →
    Option (List TypeCheckError)
  | [], _, _, errors => some errors
  | name :: rest, visited, in_stack, errors =>
    if name ∈ visited then check_circ_loop s rest visited in_stack errors
    else
      match tc_dfs s (tc_fuel s) name visited in_stack with
      | none => none
      | some (some cycle, v, stk) =>
          check_circ_loop s rest v stk (errors ++ [.circularDependency cycle])
      | some (none, v, stk) => check_circ_loop s rest v stk errors

/-- `check_circular_dependencies` from `typechecker/relations.rs`. -/
def check_circular_dependencies (s : Schema) : Option (List TypeCheckError) :=
  check_circ_loop s (s.entities.map (fun e => e.name)) [] [] []

/-- `check_primary_keys` from `typechecker/constraints.rs` (collects map
**keys** of primary-key fields). -/
def check_primary_keys (s : Schema) : List TypeCheckError :=
  s.entities.flatMap (fun entity =>
    let primary_keys := (entity.fields.filter (fun p => p.2.primary_key)).map (fun p => p.1)
    match primary_keys with
    | [] => [.missingPrimaryKey entity.name]
    | [_] => []
    | _ => [.multiplePrimaryKeys entity.name primary_keys])

def is_vector_type : FieldType → Bool
  | .vector _ => true
  | _ => false

/-- The errors `check_annotations` emits for one (annotated or not) field,
in emission order: vector-annotation mismatch, then the primary constraint,
then the unique constraint (lines 34–66 of `constraints.rs`). -/
def field_annotation_errors (ename : String) (f : Field) : List TypeCheckError :=
  match f.backend with
  | none => []
  | some annotation =>
    (if annotation = .vector ∧ is_vector_type f.field_type = false then
      [ TypeCheckError.invalidVectorAnnotation ename f.name (field_type_debug f.field_type)]
    else [])
    ++ (if f.primary_key then
      [.annotationOnConstrainedField ename f.name "primary" (annotation_debug_lower annotation)]
    else [])
    ++ (if f.unique then
      [.annotationOnConstrainedField ename f.name "unique" (annotation_debug_lower annotation)]
    else [])

/-- `check_annotations` from `typechecker/constraints.rs`. -/
def check_annotations (s : Schema) : List TypeCheckError :=
  s.entities.flatMap (fun e => e.fields.flatMap (fun p => field_annotation_errors e.name p.2))

/-- 0-based declaration indices at which `name` occurs among the schema's
entities — the `Vec<usize>` stored under `name` in the `entity_names` map of
`type_check` (pushed in increasing order). -/
def occ_indices (s : Schema) (name : String) : List Nat :=
  (s.entities.enum.filter (fun p => p.2.name = name)).map (fun p => p.1)

/-- The entity-duplicate pass of `type_check` (lines 40–63 of
`typechecker/mod.rs`).  The Rust code iterates the `entity_names` `HashMap`
in unspecified order, each key exactly once; the embedding iterates the
distinct names in first-occurrence order.  Per name the emitted errors and
their relative order are those of the Rust loop. -/
def duplicate_entity_errors (s : Schema) : List TypeCheckError :=
  ((s.entities.map (fun e => e.name)).dedup).flatMap (fun name =>
    match occ_indices s name with
    | [] => []
    | i0 :: rest => rest.map (fun i => .duplicateEntity name (i0 + 1) (i + 1)))

/-- The field-duplicate pass of `type_check` (lines 65–84): groups the map
**values** of `entity.fields` by their stored `Field.name` and emits one
`DuplicateField` per name occurring more than once. -/
def duplicate_field_errors (entity : Entity) : List TypeCheckError :=
  ((entity.fields.map (fun p => p.2.name)).dedup).filterMap (fun fname =>
    if 1 < ((entity.fields.filter (fun p => p.2.name = fname)).length) then
      some (.duplicateField entity.name fname)
    else none)

/-- `type_check` from `typechecker/mod.rs`: all passes, concatenated in the
source's push order (`none` only on fuel exhaustion of the cycle pass,
which `tc_dfs_no_fuel_exhaustion` rules out). -/
def type_check (s : Schema) : Option (List TypeCheckError) :=
  match check_circular_dependencies s with
  | none => none
  | some circ =>
    some (duplicate_entity_errors s
      ++ s.entities.flatMap duplicate_field_errors
      ++ check_relations s
      ++ circ
      ++ check_primary_keys s
      ++ check_annotations s)

/-! ## Diagnostic snippet rendering (`parser/mod.rs`)

Rust `&str` values are embedded as `List Char`; Rust's byte-indexed
slicing is modelled through the UTF-8 size of each character
(`Char.utf8Size`), so that `&line[i..]` becomes `drop_bytes line i`, which
is `none` exactly when Rust would panic (index past the end of the string
or not on a character boundary). -/

/-- Rust `char::is_whitespace`: the Unicode White_Space property. -/
def rust_is_whitespace (c : Char) : Bool :=
  let n := c.toNat
  (9 ≤ n && n ≤ 13) || n = 32 || n = 0x85 || n = 0xA0 || n = 0x1680
    || (0x2000 ≤ n && n ≤ 0x200A) || n = 0x2028 || n = 0x2029
    || n = 0x202F || n = 0x205F || n = 0x3000

/-- Splits at newline characters, keeping empty pieces. -/
def split_nl : List Char → List (List Char)
  | [] => [[]]
  | c :: cs =>
    if c = '\n' then [] :: split_nl cs
    else
      match split_nl cs with
      | p :: ps => (c :: p) :: ps
      | [] => [[c]]

/-- Strip one trailing carriage return, as Rust `str::lines` does. -/
def strip_cr (l : List Char) : List Char :=
  if l.getLast? = some '\r' then l.dropLast else l

/-- Rust `str::lines`: split at `\n`, drop the optional final line ending,
strip a trailing `\r` from each line. -/
def rust_lines (src : List Char) : List (List Char) :=
  if src = [] then []
  else
    let parts := split_nl src
    let parts := if src.getLast? = some '\n' then parts.dropLast else parts
    parts.map strip_cr

/-- Rust byte slicing `&s[i..]`: drop `i` UTF-8 bytes.  `none` is the Rust
panic: `i` is past the end of the string or inside a multi-byte character. -/
def drop_bytes : List Char → Nat → Option (List Char)
  | l, 0 => some l
  | [], _ + 1 => none
  | c :: cs, i + 1 =>
    if i + 1 < c.utf8Size then none
    else drop_bytes cs (i + 1 - c.utf8Size)

/-- The characters that end the caret run of `extract_snippet`: whitespace,
`,`, and the two brace characters (code points 123 and 125). -/
def snippet_stop (c : Char) : Bool :=
  rust_is_whitespace c || c = ',' || c.toNat = 123 || c.toNat = 125

/-- Rust `format!("{:>w$}", s)`: left-pad with spaces to width `w`. -/
def pad_left (s : String) (w : Nat) : String :=
  String.mk (List.replicate (w - s.length) ' ') ++ s

/-- `extract_snippet` from `parser/mod.rs`.  `none` is the Rust panic of
the byte slice `&target_line[column - 1..]`.  `column` is a 1-based
position (the code runs it on positions produced by
`offset_to_position`, which are ≥ 1), so `column - 1` is the Rust
`column - 1` without underflow. -/
def extract_snippet (source : List Char) (line column : Nat) : Option String :=
  let lines := rust_lines source
  if line = 0 ∨ lines.length < line then some ""
  else
    let target := lines.getD (line - 1) []
    let width := max (toString line).length 3
    match drop_bytes target (column - 1) with
    | none => none
    | some rest =>
      let token_len := max (rest.takeWhile (fun c => !(snippet_stop c))).length 1
      some (pad_left (toString line) width ++ " │ " ++ String.mk target ++ "\n"
        ++ pad_left "" width ++ " │ "
        ++ String.mk (List.replicate (column - 1) ' ')
        ++ String.mk (List.replicate token_len '^'))

/-! ## Auxiliary notions used by the claim statements -/

/-- The schema's entity names, in declaration order. -/
def entity_names (s : Schema) : List String := s.entities.map (fun e => e.name)

/-- Substring test: `pat` occurs contiguously in `s`. -/
def occurs_in (pat s : String) : Bool :=
  s.data.tails.any (fun t => pat.data.isPrefixOf t)

/-- The pieces `render_column` appends, in order: the base
`"    <name> <type>"` text, then the optional markers. -/
def column_parts (f : Field) : List String :=
  ["    " ++ f.name ++ " " ++ to_postgres_type f.field_type]
    ++ (if f.primary_key then [" PRIMARY KEY"] else [])
    ++ (if !f.nullable && !f.primary_key then [" NOT NULL"] else [])
    ++ (if f.unique then [" UNIQUE"] else [])
    ++ (match f.default with
        | some d => [" DEFAULT " ++ to_postgres_default d]
        | none => [])

/-- Concatenation of the pieces. -/
def join_parts : List String → String
  | [] => ""
  | p :: ps => p ++ join_parts ps

/-- Stated from the spec's description of the foreign-key constraints of an
entity's statement: the (declaring entity name, foreign key) pairs of the
HasMany relations of the schema that target `e` and carry a foreign key, in
declaration order. -/
def has_many_into (s : Schema) (e : Entity) : List (String × String) :=
  s.entities.flatMap (fun o =>
    (o.relations.map Prod.snd).filterMap (fun r =>
      if r.kind = .hasMany ∧ r.target_entity = e.name then
        r.foreign_key.map (fun fk => (o.name, fk))
      else none))

/-- Rendering of one foreign-key constraint from such a pair. -/
def render_fk (q : String × String) : String :=
  "    FOREIGN KEY (" ++ q.2 ++ ") REFERENCES " ++ entity_to_table q.1 ++ "(id)"

/-- Stated from the claim's words: the same pairs but only from entities
*other than* `e` itself (the claim excludes `e`'s own self-targeting
HasMany relations). -/
def has_many_into_other (s : Schema) (e : Entity) : List (String × String) :=
  s.entities.flatMap (fun o =>
    if o.name = e.name then []
    else (o.relations.map Prod.snd).filterMap (fun r =>
      if r.kind = .hasMany ∧ r.target_entity = e.name then
        r.foreign_key.map (fun fk => (o.name, fk))
      else none))

/-- The spec's HasMany dependency edge: entity `o` declares a HasMany
relation whose target is `t` (the owner `o` must be created before `t`). -/
def hm_edge (s : Schema) (o t : String) : Prop :=
  ∃ e ∈ s.entities, e.name = o ∧
    ∃ p ∈ e.relations, p.2.kind = .hasMany ∧ p.2.target_entity = t

/-- The HasMany dependency graph of the schema has no (directed) cycle. -/
def hm_acyclic (s : Schema) : Prop :=
  ∀ n, ¬ Relation.TransGen (hm_edge s) n n

/-- An order respects the migration dependencies when every name on it has
all its `dep_calls` dependencies on it at strictly smaller index. -/
def order_respects_deps (s : Schema) (ord : List String) : Prop :=
  ∀ a ∈ ord, ∀ d ∈ dep_calls s a, d ∈ ord ∧ ord.indexOf d < ord.indexOf a

/-- The invariant of the topological sort's mutable state: `visited` and
`order` receive exactly the same pushes (lines 167–168 of `generator.rs`),
the order is duplicate-free, holds only entity names, and respects the
dependencies collected so far. -/
def TopoInv (s : Schema) (st : TopoState) : Prop :=
  st.visited = st.order ∧ st.order.Nodup ∧
    (∀ n ∈ st.order, n ∈ entity_names s) ∧ order_respects_deps s st.order

/-- Is this error a `DuplicateEntity` for the given name? -/
def is_dup_entity_err (name : String) : TypeCheckError → Bool
  | .duplicateEntity n _ _ => n == name
  | _ => false

/-- The errors that carry an (entity, field) pair naming a specific field:
`DuplicateField`, `InvalidVectorAnnotation`, `AnnotationOnConstrainedField`. -/
def mentions_field (ename fname : String) : TypeCheckError → Bool
  | .duplicateField e f => e == ename && f == fname
  | TypeCheckError.invalidVectorAnnotation e f _ => e == ename && f == fname
  | .annotationOnConstrainedField e f _ _ => e == ename && f == fname
  | _ => false

/-- The claim's caret-run length: contiguous characters that are not
whitespace, `,`, or a brace, from the slice start. -/
def caret_run (l : List Char) : Nat :=
  (l.takeWhile (fun c => !(snippet_stop c))).length

/-- Constructor classifiers for `TypeCheckError`, one per pass. -/
def is_relation_err : TypeCheckError → Bool
  | .unknownRelationTarget _ _ _ => true
  | .missingForeignKey _ _ => true
  | .invalidForeignKey _ _ _ _ => true
  | _ => false

def is_pk_err : TypeCheckError → Bool
  | .missingPrimaryKey _ => true
  | .multiplePrimaryKeys _ _ => true
  | _ => false

def is_circ_err : TypeCheckError → Bool
  | .circularDependency _ => true
  | _ => false

def is_dup_ent_err : TypeCheckError → Bool
  | .duplicateEntity _ _ _ => true
  | _ => false

def is_dup_field_err : TypeCheckError → Bool
  | .duplicateField _ _ => true
  | _ => false

def is_annotation_err : TypeCheckError → Bool
  | TypeCheckError.invalidVectorAnnotation _ _ _ => true
  | .annotationOnConstrainedField _ _ _ _ => true
  | _ => false

/-! ## Concrete fixtures -/

/-- A plain `id: uuid primary` field. -/
def id_field : Field :=
  { name := "id", field_type := .uuid, nullable := false, unique := false,
    primary_key := true, default := none, backend := none }

def user_orders_rel : Relation :=
  { name := "orders", kind := .hasMany, target_entity := "Order",
    foreign_key := some "user_id", through := none }

def user_entity : Entity :=
  { name := "User",
    fields := [("id", id_field),
               ("email", { name := "email", field_type := .string, nullable := false,
                           unique := true, primary_key := false, default := none,
                           backend := none })],
    relations := [("orders", user_orders_rel)] }

/-- Scenario B's `age: int`, not nullable. -/
def age_field : Field :=
  { name := "age", field_type := .int, nullable := false, unique := false,
    primary_key := false, default := none, backend := none }

def order_entity : Entity :=
  { name := "Order",
    fields := [("id", id_field),
               ("user_id", { name := "user_id", field_type := .uuid, nullable := false,
                             unique := false, primary_key := false, default := none,
                             backend := none }),
               ("age", age_field)],
    relations := [] }

/-- Scenario C shaped schema: `User` has many `Order` via `user_id`. -/
def user_order_schema : Schema := { entities := [order_entity, user_entity] }

/-- A field whose *name* contains the keyword text `PRIMARY KEY` while its
`primary_key` flag is false. -/
def c2_cx_field : Field :=
  { name := "a PRIMARY KEY b", field_type := .uuid, nullable := false, unique := false,
    primary_key := false, default := none, backend := none }

def c2_cx_entity : Entity :=
  { name := "T", fields := [("a PRIMARY KEY b", c2_cx_field)], relations := [] }

def c2_cx_schema : Schema := { entities := [c2_cx_entity] }

/-- An entity with a HasMany relation targeting itself. -/
def c3_cx_entity : Entity :=
  { name := "User",
    fields := [("id", id_field)],
    relations := [("mgr", { name := "mgr", kind := .hasMany, target_entity := "User",
                            foreign_key := some "boss_id", through := none })] }

def c3_cx_schema : Schema := { entities := [c3_cx_entity] }

/-- `A ↔ B` cycle via HasOne, plus `C → A`: one connected cyclic component
reachable from two DFS roots. -/
def c4_cx_schema : Schema :=
  { entities :=
      [{ name := "A", fields := [("id", id_field)],
         relations := [("b", { name := "b", kind := .hasOne, target_entity := "B",
                               foreign_key := none, through := none })] },
       { name := "B", fields := [("id", id_field)],
         relations := [("a", { name := "a", kind := .hasOne, target_entity := "A",
                               foreign_key := none, through := none })] },
       { name := "C", fields := [("id", id_field)],
         relations := [("a", { name := "a", kind := .hasOne, target_entity := "A",
                               foreign_key := none, through := none })] }] }

/-- Entity name `Dup` declared at positions 1, 2 and 4 (1-based). -/
def c6_w_schema : Schema :=
  { entities :=
      [{ name := "Dup", fields := [("id", id_field)], relations := [] },
       { name := "Dup", fields := [("id", id_field)], relations := [] },
       { name := "Other", fields := [("id", id_field)], relations := [] },
       { name := "Dup", fields := [("id", id_field)], relations := [] }] }

/-- A `@vector`-annotated string field that is both primary and unique. -/
def c7_w_field : Field :=
  { name := "embedding", field_type := .string, nullable := false, unique := true,
    primary_key := true, default := none, backend := some .vector }

def c7_w_entity : Entity :=
  { name := "Product", fields := [("embedding", c7_w_field)], relations := [] }

def c7_w_schema : Schema := { entities := [c7_w_entity] }

/-- A `@vector`-annotated string field with no other constraint. -/
def c7_w2_field : Field :=
  { name := "embedding", field_type := .string, nullable := false, unique := false,
    primary_key := false, default := none, backend := some .vector }

def c7_w2_entity : Entity :=
  { name := "Product", fields := [("id", id_field), ("embedding", c7_w2_field)],
    relations := [] }

def c7_w2_schema : Schema := { entities := [c7_w2_entity] }

/-- A constructible entity whose field map holds two *distinct keys* whose
stored fields carry the *same* `Field.name` (possible in Rust because
`Entity.fields` is a public `HashMap` — key uniqueness is guaranteed by the
map, key = `Field.name` is not). -/
def c9_cx_entity : Entity :=
  { name := "E",
    fields := [("x", { name := "dup", field_type := .int, nullable := false,
                       unique := false, primary_key := true, default := none,
                       backend := none }),
               ("y", { name := "dup", field_type := .int, nullable := false,
                       unique := false, primary_key := false, default := none,
                       backend := none })],
    relations := [] }

def c9_cx_schema : Schema := { entities := [c9_cx_entity] }

end Chameleon

namespace Chameleon

/-- C5: `to_postgres_type` and `to_postgres_default` are total (they are
structurally recursive Lean functions, defined on every constructor exactly
as the exhaustive Rust `match`) and realize the literal mapping table,
recursing through `Array`. -/
theorem c5_type_map_total_and_correct :
    to_postgres_type .uuid = "UUID" ∧
    to_postgres_type .string = "VARCHAR" ∧
    to_postgres_type .int = "INTEGER" ∧
    to_postgres_type .decimal = "NUMERIC" ∧
    to_postgres_type .bool = "BOOLEAN" ∧
    to_postgres_type .timestamp = "TIMESTAMP" ∧
    to_postgres_type .float = "DOUBLE PRECISION" ∧
    (∀ n : Nat, to_postgres_type (.vector n) = "VECTOR(" ++ toString n ++ ")") ∧
    (∀ t : FieldType, to_postgres_type (.array t) = to_postgres_type t ++ "[]") ∧
    to_postgres_default .now = "NOW()" ∧
    to_postgres_default .uuidv4 = "gen_random_uuid()" ∧
    (∀ s : String, to_postgres_default (.literal s) = "'" ++ s ++ "'") :=
  ⟨rfl, rfl, rfl, rfl, rfl, rfl, rfl, fun _ => rfl, fun _ => rfl, rfl, rfl, fun _ => rfl⟩

/-! ### C2: column clause markers -/

theorem ne_by_second (s t : String) (c1 c2 : Char) (h1 : s.data[1]? = some c1)
    (h2 : t.data[1]? = some c2) (hne : c1 ≠ c2) : s ≠ t := by
  intro he
  rw [he, h2] at h1
  exact hne (Option.some.inj h1).symm

theorem base_second_char (nm : String) (ft : FieldType) :
    ("    " ++ nm ++ " " ++ to_postgres_type ft).data[1]? = some ' ' := by
  rw [String.data_append, String.data_append, String.data_append,
    List.getElem?_append_left, List.getElem?_append_left, List.getElem?_append_left]
  · rfl
  · decide
  · rw [List.length_append]
    have h4 : ("    " : String).data.length = 4 := rfl
    omega
  · rw [List.length_append, List.length_append]
    have h4 : ("    " : String).data.length = 4 := rfl
    omega

theorem default_second_char (d : DefaultValue) :
    (" DEFAULT " ++ to_postgres_default d).data[1]? = some 'D' := by
  rw [String.data_append, List.getElem?_append_left]
  · rfl
  · decide

theorem base_ne_pk (nm : String) (ft : FieldType) :
    ("    " ++ nm ++ " " ++ to_postgres_type ft) ≠ " PRIMARY KEY" :=
  ne_by_second _ _ ' ' 'P' (base_second_char nm ft) rfl (by decide)

theorem base_ne_nn (nm : String) (ft : FieldType) :
    ("    " ++ nm ++ " " ++ to_postgres_type ft) ≠ " NOT NULL" :=
  ne_by_second _ _ ' ' 'N' (base_second_char nm ft) rfl (by decide)

theorem default_ne_pk (d : DefaultValue) :
    (" DEFAULT " ++ to_postgres_default d) ≠ " PRIMARY KEY" :=
  ne_by_second _ _ 'D' 'P' (default_second_char d) rfl (by decide)

theorem default_ne_nn (d : DefaultValue) :
    (" DEFAULT " ++ to_postgres_default d) ≠ " NOT NULL" :=
  ne_by_second _ _ 'D' 'N' (default_second_char d) rfl (by decide)

/-- C2 counterexample: a schema on which `generate_migration` succeeds, with
a field whose `primary_key` flag is false while its rendered column clause
(and the full migration script) contains the text `PRIMARY KEY`, because the
field's *name* contains it.  The claim's "contains 'PRIMARY KEY' exactly
when the field's primary_key flag is true" is therefore false as stated. -/
theorem c2_counterexample :
    c2_cx_field.primary_key = false ∧
    occurs_in "PRIMARY KEY" (render_column c2_cx_field) = true ∧
    ((generate_migration c2_cx_schema).map (fun r =>
      match r with
      | .ok m => occurs_in "PRIMARY KEY" m.sql
      | .error _ => false)) = some true := by decide

/-- C2 (amended): for every schema on which `generate_migration` succeeds
and every field of every entity, the rendered column clause is the
concatenation of its pieces, among which the `" PRIMARY KEY"` marker occurs
exactly when the field's `primary_key` flag is true and the `" NOT NULL"`
marker exactly when the field is neither nullable nor the primary key (an
Int field that is not nullable renders as `age INTEGER NOT NULL`, the same
field marked nullable without `NOT NULL`); plain substring containment, as
the claim stated it, can additionally arise from the field's own name or
default text. -/
theorem c2_column_markers (s : Schema) (m : Migration) (e : Entity) (p : String × Field)
    (hgen : generate_migration s = some (.ok m)) (he : e ∈ s.entities)
    (hp : p ∈ e.fields) :
    render_column p.2 = join_parts (column_parts p.2) ∧
    ((" PRIMARY KEY" ∈ column_parts p.2) ↔ p.2.primary_key = true) ∧
    ((" NOT NULL" ∈ column_parts p.2) ↔
      (p.2.nullable = false ∧ p.2.primary_key = false)) := by
  obtain ⟨k, f⟩ := p
  obtain ⟨nm, ft, nl, un, pk, df, bk⟩ := f
  refine ⟨?_, ?_, ?_⟩
  · cases df <;> cases pk <;> cases nl <;> cases un <;>
      (apply String.ext;
       simp [render_column, column_parts, join_parts, String.data_append,
         List.append_assoc, show ("" : String).data = [] from rfl])
  · cases df <;> cases pk <;> cases nl <;> cases un <;>
      simp [column_parts] <;>
      first
        | exact fun h => base_ne_pk nm ft h.symm
        | exact ⟨fun h => base_ne_pk nm ft h.symm, fun h => default_ne_pk _ h.symm⟩
  · cases df <;> cases pk <;> cases nl <;> cases un <;>
      simp [column_parts] <;>
      first
        | exact fun h => base_ne_nn nm ft h.symm
        | exact ⟨fun h => base_ne_nn nm ft h.symm, fun h => default_ne_nn _ h.symm⟩

/-- Closed witness for C2: the `age: int` field of Scenario B inside a
schema whose migration generation succeeds. -/
theorem c2_column_markers_witness :
    render_column age_field = "    age INTEGER NOT NULL" ∧
    (∃ m, generate_migration user_order_schema = some (.ok m) ∧
      (render_column age_field = join_parts (column_parts age_field) ∧
       ((" PRIMARY KEY" ∈ column_parts age_field) ↔ age_field.primary_key = true) ∧
       ((" NOT NULL" ∈ column_parts age_field) ↔
         (age_field.nullable = false ∧ age_field.primary_key = false)))) := by
  refine ⟨by decide, ?_⟩
  obtain ⟨m, hm⟩ : ∃ m, generate_migration user_order_schema = some (.ok m) := ⟨_, rfl⟩
  exact ⟨m, hm, c2_column_markers user_order_schema m order_entity ("age", age_field) hm
    (by decide) (by decide)⟩

/-! ### C3: foreign-key constraints of a table statement -/

/-- The constraint loop of `generate_create_table` collects exactly the
rendered `(declaring entity, foreign key)` pairs of the schema's HasMany
relations targeting `e` — including those declared by `e` itself. -/
theorem fk_constraints_eq (s : Schema) (e : Entity) :
    fk_constraints s e = (has_many_into s e).map render_fk := by
  unfold fk_constraints has_many_into
  rw [List.map_flatMap]
  congr 1
  funext o
  rw [List.filterMap_map, List.map_filterMap]
  congr 1
  funext p
  by_cases h : p.2.kind = RelationKind.hasMany ∧ p.2.target_entity = e.name
  · simp only [Function.comp_apply, if_pos h, Option.map_map]
    cases p.2.foreign_key <;> rfl
  · simp only [Function.comp_apply, if_neg h]
    rfl

/-- C3 counterexample: an entity whose *own* HasMany relation targets
itself.  The claim says such a relation contributes no constraint to the
entity's statement, but the generated statement does contain the
`FOREIGN KEY (boss_id) REFERENCES users(id)` constraint (the constraint
loop does not skip the entity itself), while the claim's
"other entities only" collection is empty. -/
theorem c3_counterexample :
    fk_constraints c3_cx_schema c3_cx_entity ≠
      (has_many_into_other c3_cx_schema c3_cx_entity).map render_fk ∧
    has_many_into_other c3_cx_schema c3_cx_entity = [] ∧
    occurs_in "FOREIGN KEY (boss_id) REFERENCES users(id)"
      (generate_create_table c3_cx_entity c3_cx_schema) = true ∧
    ((generate_migration c3_cx_schema).map (fun r =>
      match r with
      | .ok m => occurs_in "FOREIGN KEY (boss_id) REFERENCES users(id)" m.sql
      | .error _ => false)) = some true := by decide

/-- C3 (amended): for every schema on which `generate_migration` succeeds
and every entity `E`, `E`'s table statement carries one
`FOREIGN KEY (fk) REFERENCES t(id)` constraint for exactly those HasMany
relations that are declared by **any** entity `O` of the schema —
including `E` itself — that target `E` and carry a foreign key `fk`, with
`t` the table name of `O`. -/
theorem c3_fk_constraints (s : Schema) (m : Migration) (e : Entity)
    (hgen : generate_migration s = some (.ok m)) (he : e ∈ s.entities) :
    generate_create_table e s =
      "CREATE TABLE " ++ entity_to_table e.name ++ " (\n"
        ++ String.intercalate ",\n"
            ((e.fields.map (fun p => render_column p.2))
              ++ (has_many_into s e).map render_fk)
        ++ "\n);" := by
  unfold generate_create_table
  rw [fk_constraints_eq]

/-- Closed witness for C3 (amended), at the self-targeting schema: the
single constraint of the statement is the one contributed by the entity's
own relation. -/
theorem c3_fk_constraints_witness :
    (has_many_into c3_cx_schema c3_cx_entity).map render_fk =
      ["    FOREIGN KEY (boss_id) REFERENCES users(id)"] ∧
    (∃ m, generate_migration c3_cx_schema = some (.ok m) ∧
      generate_create_table c3_cx_entity c3_cx_schema =
        "CREATE TABLE " ++ entity_to_table c3_cx_entity.name ++ " (\n"
          ++ String.intercalate ",\n"
              ((c3_cx_entity.fields.map (fun p => render_column p.2))
                ++ (has_many_into c3_cx_schema c3_cx_entity).map render_fk)
          ++ "\n);") := by
  refine ⟨by decide, ?_⟩
  obtain ⟨m, hm⟩ : ∃ m, generate_migration c3_cx_schema = some (.ok m) := ⟨_, rfl⟩
  exact ⟨m, hm, c3_fk_constraints c3_cx_schema m c3_cx_entity hm (by decide)⟩

/-! ### Shapes of the type-checking passes -/

theorem check_relations_shape (s : Schema) :
    ∀ x ∈ check_relations s, is_relation_err x = true := by
  intro x hx
  unfold check_relations at hx
  rw [List.mem_flatMap] at hx
  obtain ⟨ent, _, hx⟩ := hx
  rw [List.mem_flatMap] at hx
  obtain ⟨p, _, hx⟩ := hx
  dsimp only [] at hx
  split at hx
  · simp only [List.mem_singleton] at hx
    subst hx; rfl
  · split at hx
    · simp only [List.mem_singleton] at hx
      subst hx; rfl
    · split at hx
      · split at hx
        · split at hx
          · simp only [List.mem_singleton] at hx
            subst hx; rfl
          · simp at hx
        · simp at hx
      · simp at hx

theorem check_primary_keys_shape (s : Schema) :
    ∀ x ∈ check_primary_keys s, is_pk_err x = true := by
  intro x hx
  unfold check_primary_keys at hx
  rw [List.mem_flatMap] at hx
  obtain ⟨ent, _, hx⟩ := hx
  dsimp only [] at hx
  split at hx
  · simp only [List.mem_singleton] at hx; subst hx; rfl
  · exact absurd hx (List.not_mem_nil x)
  · simp only [List.mem_singleton] at hx; subst hx; rfl

theorem check_annotations_shape (s : Schema) :
    ∀ x ∈ check_annotations s, is_annotation_err x = true := by
  intro x hx
  unfold check_annotations at hx
  rw [List.mem_flatMap] at hx
  obtain ⟨ent, _, hx⟩ := hx
  rw [List.mem_flatMap] at hx
  obtain ⟨p, _, hx⟩ := hx
  unfold field_annotation_errors at hx
  split at hx
  · simp at hx
  · rw [List.mem_append, List.mem_append] at hx
    rcases hx with (hx | hx) | hx <;> split at hx <;>
      first
        | (simp only [List.mem_singleton] at hx; subst hx; rfl)
        | exact absurd hx (List.not_mem_nil x)

theorem duplicate_entity_errors_shape (s : Schema) :
    ∀ x ∈ duplicate_entity_errors s, is_dup_ent_err x = true := by
  intro x hx
  unfold duplicate_entity_errors at hx
  rw [List.mem_flatMap] at hx
  obtain ⟨n, _, hx⟩ := hx
  split at hx
  · simp at hx
  · rw [List.mem_map] at hx
    obtain ⟨i, _, hi⟩ := hx
    subst hi; rfl

theorem duplicate_field_errors_shape (e : Entity) :
    ∀ x ∈ duplicate_field_errors e, is_dup_field_err x = true := by
  intro x hx
  unfold duplicate_field_errors at hx
  rw [List.mem_filterMap] at hx
  obtain ⟨n, _, hx⟩ := hx
  split at hx
  · rw [Option.some.injEq] at hx
    subst hx; rfl
  · exact absurd hx (by simp)

theorem check_circ_loop_shape (s : Schema) :
    ∀ roots v stk errs0 errs, check_circ_loop s roots v stk errs0 = some errs →
      ∀ x ∈ errs, x ∈ errs0 ∨ is_circ_err x = true := by
  intro roots
  induction roots with
  | nil =>
    intro v stk errs0 errs h x hx
    unfold check_circ_loop at h
    rw [Option.some.injEq] at h
    subst h
    exact Or.inl hx
  | cons name rest ih =>
    intro v stk errs0 errs h x hx
    unfold check_circ_loop at h
    split at h
    · exact ih v stk errs0 errs h x hx
    · split at h
      · exact absurd h (by simp)
      · rcases ih _ _ _ _ h x hx with hmem | hc
        · rw [List.mem_append] at hmem
          rcases hmem with hmem | hmem
          · exact Or.inl hmem
          · simp only [List.mem_singleton] at hmem
            subst hmem
            exact Or.inr rfl
        · exact Or.inr hc
      · exact ih _ _ _ _ h x hx

theorem check_circular_dependencies_shape (s : Schema) :
    ∀ errs, check_circular_dependencies s = some errs →
      ∀ x ∈ errs, is_circ_err x = true := by
  intro errs h x hx
  rcases check_circ_loop_shape s _ _ _ _ _ h x hx with hmem | hc
  · exact absurd hmem (List.not_mem_nil x)
  · exact hc

/-! ### C9: duplicate-field errors -/

theorem filter_name_le_one (l : List (String × Field))
    (h : (l.map (fun p => p.2.name)).Nodup) (v : String) :
    (l.filter (fun p => p.2.name = v)).length ≤ 1 := by
  induction l with
  | nil => simp
  | cons p l ih =>
    rw [List.map_cons, List.nodup_cons] at h
    obtain ⟨hnot, hnd⟩ := h
    by_cases hv : p.2.name = v
    · rw [List.filter_cons_of_pos (by simpa using hv)]
      have hnil : l.filter (fun q => q.2.name = v) = [] := by
        rw [List.filter_eq_nil_iff]
        intro q hq
        simp only [decide_eq_true_eq]
        intro hqv
        exact hnot (by
          rw [List.mem_map]
          exact ⟨q, hq, by rw [hqv, hv]⟩)
      rw [hnil]
      simp
    · rw [List.filter_cons_of_neg (by simpa using hv)]
      exact ih hnd

theorem duplicate_field_errors_eq_nil (e : Entity)
    (h : (e.fields.map (fun p => p.2.name)).Nodup) :
    duplicate_field_errors e = [] := by
  unfold duplicate_field_errors
  rw [List.filterMap_eq_nil_iff]
  intro n hn
  rw [if_neg]
  have := filter_name_le_one e.fields h n
  omega

/-- C9 counterexample: `Entity.fields` is a public map, so an entity whose
two (distinct) keys hold fields with the *same* `Field.name` is
constructible in Rust without going through `add_field`; on it `type_check`
does return a `DuplicateField` error. -/
theorem c9_counterexample :
    (c9_cx_entity.fields.map Prod.fst).Nodup ∧
    ((type_check c9_cx_schema).map (fun errs =>
      errs.contains (.duplicateField "E" "dup"))) = some true := by decide

/-- C9 (amended): for every schema in which each entity's field map is
keyed by the stored field's name (the invariant `add_field` maintains) with
no duplicate keys (the Rust `HashMap` invariant), `type_check` never
returns a `DuplicateField` error: the duplicate branch of the
field-uniqueness pass is unreachable. -/
theorem c9_no_duplicate_field (s : Schema) (errs : List TypeCheckError)
    (hk : ∀ e ∈ s.entities, (∀ p ∈ e.fields, p.1 = p.2.name) ∧ (e.fields.map Prod.fst).Nodup)
    (hc : type_check s = some errs) :
    ∀ en fn, TypeCheckError.duplicateField en fn ∉ errs := by
  intro en fn hmem
  unfold type_check at hc
  cases hcirc : check_circular_dependencies s with
  | none => rw [hcirc] at hc; exact absurd hc (by simp)
  | some circ =>
    rw [hcirc, Option.some.injEq] at hc
    subst hc
    simp only [List.mem_append] at hmem
    rcases hmem with ((((h | h) | h) | h) | h) | h
    · have := duplicate_entity_errors_shape s _ h
      simp [is_dup_ent_err] at this
    · rw [List.mem_flatMap] at h
      obtain ⟨e, he, h⟩ := h
      have hnames : (e.fields.map (fun p => p.2.name)).Nodup := by
        obtain ⟨hkey, hnd⟩ := hk e he
        have heq : e.fields.map (fun p => p.2.name) = e.fields.map Prod.fst := by
          apply List.map_congr_left
          intro p hp
          exact (hkey p hp).symm
        rw [heq]
        exact hnd
      rw [duplicate_field_errors_eq_nil e hnames] at h
      exact absurd h (List.not_mem_nil _)
    · have := check_relations_shape s _ h
      simp [is_relation_err] at this
    · have := check_circular_dependencies_shape s _ hcirc _ h
      simp [is_circ_err] at this
    · have := check_primary_keys_shape s _ h
      simp [is_pk_err] at this
    · have := check_annotations_shape s _ h
      simp [is_annotation_err] at this

/-- Closed witness for C9 (amended), on a well-keyed schema. -/
theorem c9_no_duplicate_field_witness :
    ∃ errs, type_check user_order_schema = some errs ∧
      TypeCheckError.duplicateField "User" "id" ∉ errs := by
  refine ⟨_, rfl, ?_⟩
  exact c9_no_duplicate_field user_order_schema _ (by decide) rfl "User" "id"

/-! ### C6: duplicate-entity errors -/

theorem flatMap_single_support {a : Type} {b : Type} [DecidableEq a]
    (l : List a) (g : a → List b) (x : a) (hnd : l.Nodup)
    (hg : ∀ y ∈ l, y ≠ x → g y = []) :
    l.flatMap g = if x ∈ l then g x else [] := by
  induction l with
  | nil => simp
  | cons z zs ih =>
    rw [List.nodup_cons] at hnd
    obtain ⟨hz, hnd⟩ := hnd
    rw [List.flatMap_cons]
    by_cases hzx : z = x
    · subst hzx
      rw [if_pos (List.mem_cons_self z zs)]
      have hnil : zs.flatMap g = [] := by
        rw [List.bind_eq_nil]
        intro y hy
        exact hg y (List.mem_cons_of_mem _ hy) (fun he => hz (he ▸ hy))
      rw [hnil, List.append_nil]
    · rw [hg z (List.mem_cons_self z zs) hzx, List.nil_append,
        ih hnd (fun y hy => hg y (List.mem_cons_of_mem _ hy))]
      have hcond : (x ∈ z :: zs) ↔ (x ∈ zs) := by
        rw [List.mem_cons]
        constructor
        · rintro (h | h)
          · exact absurd h.symm hzx
          · exact h
        · exact Or.inr
      rw [if_congr hcond rfl rfl]

/-- The occurrence indices of a name are empty iff the name is not an
entity name. -/
theorem occ_indices_eq_nil (s : Schema) (name : String)
    (h : name ∉ entity_names s) : occ_indices s name = [] := by
  unfold occ_indices
  rw [List.map_eq_nil_iff, List.filter_eq_nil_iff]
  intro p hp
  simp only [decide_eq_true_eq]
  intro hpn
  exact h (by
    rw [entity_names, List.mem_map]
    exact ⟨p.2, List.snd_mem_of_mem_enum hp, hpn⟩)

/-- The entity-uniqueness pass, filtered down to one name. -/
theorem dup_entity_filter (s : Schema) (name : String) :
    (duplicate_entity_errors s).filter (is_dup_entity_err name) =
      (match occ_indices s name with
        | [] => []
        | i0 :: rest =>
            rest.map (fun i => TypeCheckError.duplicateEntity name (i0 + 1) (i + 1))) := by
  unfold duplicate_entity_errors
  rw [List.filter_flatMap]
  rw [flatMap_single_support _ _ name (s.entities.map (fun e => e.name)).nodup_dedup]
  · by_cases hmem : name ∈ (s.entities.map (fun e => e.name)).dedup
    · rw [if_pos hmem]
      cases hocc : occ_indices s name with
      | nil => simp
      | cons i0 rest =>
        rw [List.filter_eq_self]
        intro x hx
        rw [List.mem_map] at hx
        obtain ⟨i, _, hi⟩ := hx
        subst hi
        simp [is_dup_entity_err]
    · rw [if_neg hmem]
      have : occ_indices s name = [] := by
        apply occ_indices_eq_nil
        intro hn
        exact hmem (by
          rw [List.mem_dedup]
          exact hn)
      rw [this]
  · intro y hy hyx
    cases hocc : occ_indices s y with
    | nil => simp
    | cons i0 rest =>
      rw [List.filter_eq_nil_iff]
      intro x hx
      rw [List.mem_map] at hx
      obtain ⟨i, _, hi⟩ := hx
      subst hi
      simp [is_dup_entity_err, hyx]

/-- C6: for every schema on which `type_check` completes and every name,
the `DuplicateEntity` errors for that name are exactly one per occurrence
after the first, each carrying the 1-based index of the first occurrence
and the 1-based index of that later occurrence; a name occurring at most
once yields none. -/
theorem c6_duplicate_entity_report (s : Schema) (errs : List TypeCheckError) (name : String)
    (hc : type_check s = some errs) :
    errs.filter (is_dup_entity_err name) =
      (match occ_indices s name with
        | [] => []
        | i0 :: rest =>
            rest.map (fun i => TypeCheckError.duplicateEntity name (i0 + 1) (i + 1))) := by
  unfold type_check at hc
  cases hcirc : check_circular_dependencies s with
  | none => rw [hcirc] at hc; exact absurd hc (by simp)
  | some circ =>
    rw [hcirc, Option.some.injEq] at hc
    subst hc
    rw [List.filter_append, List.filter_append, List.filter_append,
      List.filter_append, List.filter_append]
    have h2 : (s.entities.flatMap duplicate_field_errors).filter (is_dup_entity_err name) = [] := by
      rw [List.filter_eq_nil_iff]
      intro x hx
      rw [List.mem_flatMap] at hx
      obtain ⟨e, _, hx⟩ := hx
      have := duplicate_field_errors_shape e x hx
      cases x <;> simp [is_dup_entity_err] <;> simp [is_dup_field_err] at this
    have h3 : (check_relations s).filter (is_dup_entity_err name) = [] := by
      rw [List.filter_eq_nil_iff]
      intro x hx
      have := check_relations_shape s x hx
      cases x <;> simp [is_dup_entity_err] <;> simp [is_relation_err] at this
    have h4 : circ.filter (is_dup_entity_err name) = [] := by
      rw [List.filter_eq_nil_iff]
      intro x hx
      have := check_circular_dependencies_shape s circ hcirc x hx
      cases x <;> simp [is_dup_entity_err] <;> simp [is_circ_err] at this
    have h5 : (check_primary_keys s).filter (is_dup_entity_err name) = [] := by
      rw [List.filter_eq_nil_iff]
      intro x hx
      have := check_primary_keys_shape s x hx
      cases x <;> simp [is_dup_entity_err] <;> simp [is_pk_err] at this
    have h6 : (check_annotations s).filter (is_dup_entity_err name) = [] := by
      rw [List.filter_eq_nil_iff]
      intro x hx
      have := check_annotations_shape s x hx
      cases x <;> simp [is_dup_entity_err] <;> simp [is_annotation_err] at this
    rw [h2, h3, h4, h5, h6, List.append_nil, List.append_nil, List.append_nil,
      List.append_nil, List.append_nil]
    exact dup_entity_filter s name

/-- Closed witness for C6: `Dup` declared 1st, 2nd and 4th yields exactly
the two errors (first 1, second 2) and (first 1, second 4). -/
theorem c6_duplicate_entity_report_witness :
    ∃ errs, type_check c6_w_schema = some errs ∧
      errs.filter (is_dup_entity_err "Dup") =
        [TypeCheckError.duplicateEntity "Dup" 1 2,
         TypeCheckError.duplicateEntity "Dup" 1 4] := by
  refine ⟨_, rfl, ?_⟩
  exact (c6_duplicate_entity_report c6_w_schema _ "Dup" rfl).trans (by decide)


/-! ### C7: annotation errors per field -/

theorem mem_duplicate_field_errors (e : Entity) (x : TypeCheckError)
    (hx : x ∈ duplicate_field_errors e) :
    ∃ fn, x = TypeCheckError.duplicateField e.name fn := by
  unfold duplicate_field_errors at hx
  rw [List.mem_filterMap] at hx
  obtain ⟨n, _, hx⟩ := hx
  split at hx
  · rw [Option.some.injEq] at hx
    exact ⟨n, hx.symm⟩
  · exact absurd hx (by simp)

/-- Every error the annotation pass emits for a field carries that field's
entity name and field name. -/
theorem mem_field_annotation_errors (n : String) (f : Field) (x : TypeCheckError)
    (hx : x ∈ field_annotation_errors n f) :
    mentions_field n f.name x = true := by
  unfold field_annotation_errors at hx
  split at hx
  · exact absurd hx (by simp)
  · rw [List.mem_append, List.mem_append] at hx
    rcases hx with (hx | hx) | hx <;> split at hx <;>
      first
        | (simp only [List.mem_singleton] at hx; subst hx; simp [mentions_field])
        | exact absurd hx (List.not_mem_nil x)

theorem mentions_field_ne_field (n m mm : String) (x : TypeCheckError)
    (h : mentions_field n m x = true) (hne : mm ≠ m) : mentions_field n mm x = false := by
  cases x <;> simp_all [mentions_field] <;> tauto

theorem mentions_field_ne_entity (n nn m mm : String) (x : TypeCheckError)
    (h : mentions_field n m x = true) (hne : nn ≠ n) : mentions_field nn mm x = false := by
  cases x <;> simp_all [mentions_field] <;> tauto

/-- C7: for every annotated field (under unique entity and field names),
the errors `type_check` reports *for that field* are exactly: an
`InvalidVectorAnnotation` when the annotation is Vector and the type is
not, then an `AnnotationOnConstrainedField` with constraint `primary` when
the field is a primary key, then a separate one with constraint `unique`
when the field is unique — and nothing else.  In particular a non-primary,
non-unique field with a Vector annotation on a non-Vector type gets exactly
one error, and a field that is both primary and unique gets both
constraint errors. -/
theorem c7_annotation_errors (s : Schema) (errs : List TypeCheckError) (e : Entity)
    (p : String × Field) (ann : BackendAnnotation)
    (hc : type_check s = some errs)
    (he : e ∈ s.entities) (hp : p ∈ e.fields)
    (hann : p.2.backend = some ann)
    (hne : (entity_names s).Nodup)
    (hnf : (e.fields.map (fun q => q.2.name)).Nodup) :
    errs.filter (mentions_field e.name p.2.name) =
      (if ann = .vector ∧ is_vector_type p.2.field_type = false then
        [ TypeCheckError.invalidVectorAnnotation e.name p.2.name
          (field_type_debug p.2.field_type)]
      else [])
      ++ (if p.2.primary_key then
        [TypeCheckError.annotationOnConstrainedField e.name p.2.name "primary"
          (annotation_debug_lower ann)]
      else [])
      ++ (if p.2.unique then
        [TypeCheckError.annotationOnConstrainedField e.name p.2.name "unique"
          (annotation_debug_lower ann)]
      else []) := by
  unfold type_check at hc
  cases hcirc : check_circular_dependencies s with
  | none => rw [hcirc] at hc; exact absurd hc (by simp)
  | some circ =>
    rw [hcirc, Option.some.injEq] at hc
    subst hc
    rw [List.filter_append, List.filter_append, List.filter_append,
      List.filter_append, List.filter_append]
    have hinj := List.inj_on_of_nodup_map (f := fun e : Entity => e.name)
      (l := s.entities) hne
    have h1 : (duplicate_entity_errors s).filter (mentions_field e.name p.2.name) = [] := by
      rw [List.filter_eq_nil_iff]
      intro x hx
      have := duplicate_entity_errors_shape s x hx
      cases x <;> simp [mentions_field] <;> simp [is_dup_ent_err] at this
    have h2 : (s.entities.flatMap duplicate_field_errors).filter
        (mentions_field e.name p.2.name) = [] := by
      rw [List.filter_eq_nil_iff]
      intro x hx
      rw [List.mem_flatMap] at hx
      obtain ⟨e2, he2, hx⟩ := hx
      obtain ⟨fn, hfn⟩ := mem_duplicate_field_errors e2 x hx
      subst hfn
      by_cases hee : e2.name = e.name
      · have : e2 = e := hinj he2 he hee
        subst this
        rw [duplicate_field_errors_eq_nil e2 hnf] at hx
        exact absurd hx (List.not_mem_nil _)
      · simp [mentions_field, hee]
    have h3 : (check_relations s).filter (mentions_field e.name p.2.name) = [] := by
      rw [List.filter_eq_nil_iff]
      intro x hx
      have := check_relations_shape s x hx
      cases x <;> simp [mentions_field] <;> simp [is_relation_err] at this
    have h4 : circ.filter (mentions_field e.name p.2.name) = [] := by
      rw [List.filter_eq_nil_iff]
      intro x hx
      have := check_circular_dependencies_shape s circ hcirc x hx
      cases x <;> simp [mentions_field] <;> simp [is_circ_err] at this
    have h5 : (check_primary_keys s).filter (mentions_field e.name p.2.name) = [] := by
      rw [List.filter_eq_nil_iff]
      intro x hx
      have := check_primary_keys_shape s x hx
      cases x <;> simp [mentions_field] <;> simp [is_pk_err] at this
    have h6 : (check_annotations s).filter (mentions_field e.name p.2.name) =
        field_annotation_errors e.name p.2 := by
      unfold check_annotations
      rw [List.filter_flatMap]
      rw [flatMap_single_support _ _ e (List.Nodup.of_map _ hne)]
      · rw [if_pos he]
        rw [List.filter_flatMap]
        rw [flatMap_single_support _ _ p (List.Nodup.of_map _ hnf)]
        · rw [if_pos hp]
          rw [List.filter_eq_self]
          intro x hx
          exact mem_field_annotation_errors e.name p.2 x hx
        · intro q hq hqp
          rw [List.filter_eq_nil_iff]
          intro x hx
          have hq2 : q.2.name ≠ p.2.name := by
            intro hqe
            exact hqp (List.inj_on_of_nodup_map (f := fun q2 : String × Field => q2.2.name)
              (l := e.fields) hnf hq hp hqe)
          have := mem_field_annotation_errors e.name q.2 x hx
          rw [mentions_field_ne_field e.name q.2.name p.2.name x this
            (fun hh => hq2 hh.symm)]
          simp
      · intro e2 he2 hee
        rw [List.filter_eq_nil_iff]
        intro x hx
        rw [List.mem_flatMap] at hx
        obtain ⟨q, _, hx⟩ := hx
        have hname : e2.name ≠ e.name := by
          intro hn2
          exact hee (hinj he2 he hn2)
        have := mem_field_annotation_errors e2.name q.2 x hx
        rw [mentions_field_ne_entity e2.name e.name q.2.name p.2.name x this hname.symm]
        simp
    rw [h1, h2, h3, h4, h5, h6, List.nil_append, List.nil_append, List.nil_append,
      List.nil_append, List.nil_append]
    unfold field_annotation_errors
    rw [hann]

/-- Closed witness for C7: a `@vector`-annotated string field that is both
primary and unique yields the vector mismatch and both constraint errors. -/
theorem c7_annotation_errors_witness :
    ∃ errs, type_check c7_w_schema = some errs ∧
      errs.filter (mentions_field "Product" "embedding") =
        [ TypeCheckError.invalidVectorAnnotation "Product" "embedding" "String",
         TypeCheckError.annotationOnConstrainedField "Product" "embedding" "primary" "vector",
         TypeCheckError.annotationOnConstrainedField "Product" "embedding" "unique" "vector"] := by
  refine ⟨_, rfl, ?_⟩
  have h := c7_annotation_errors c7_w_schema _ c7_w_entity ("embedding", c7_w_field) .vector
    rfl (by decide) (by decide) rfl (by decide) (by decide)
  exact h.trans (by decide)


/-! ### C8: snippet rendering -/

/-- C8 counterexample: the byte slice `&target_line[column - 1..]` panics
when the column points *past* the end of the line (here column 5 on the
2-character line `ab`), and also when `column - 1` lands inside a
multi-byte character — so for such in-range lines the rendering does not
terminate without failure.  (A column exactly one past the end, here 3 on
`ab`, still succeeds and yields the minimum single caret.) -/
theorem c8_counterexample :
    1 ≤ (rust_lines ("ab".data)).length ∧
    extract_snippet ("ab".data) 1 5 = none ∧
    extract_snippet ("ab".data) 1 3 = some "  1 │ ab\n    │   ^" ∧
    extract_snippet ("héllo".data) 1 3 = none := by decide

/-- C8 (amended): for every source text and 1-based (line, column) position
whose line lies within the text, **provided `column - 1` is a valid byte
position of that line** (at most its byte length and on a character
boundary — always true up to one past the end of an ASCII line), snippet
rendering succeeds and produces the source line followed by a caret line
consisting of `column - 1` spaces and then one caret per character in the
contiguous run of characters that are not whitespace, `,` or a brace
starting at that position, with a minimum of one caret; the two lines carry
equal-width gutters, so the carets align under the column.  When
`column - 1` is past the line's byte end or inside a multi-byte character,
the Rust slice panics instead (counterexample). -/
theorem c8_snippet_rendering (source target rest : List Char) (line column : Nat)
    (hl1 : 1 ≤ line) (hl2 : line ≤ (rust_lines source).length) (hcol : 1 ≤ column)
    (htarget : target = (rust_lines source).getD (line - 1) [])
    (hslice : drop_bytes target (column - 1) = some rest) :
    ∃ g1 g2 : String, g1.length = g2.length ∧
      extract_snippet source line column =
        some (g1 ++ String.mk target ++ "\n" ++ g2
          ++ String.mk (List.replicate (column - 1) ' ')
          ++ String.mk (List.replicate (max (caret_run rest) 1) '^')) := by
  refine ⟨pad_left (toString line) (max (toString line).length 3) ++ " │ ",
    pad_left "" (max (toString line).length 3) ++ " │ ", ?_, ?_⟩
  · unfold pad_left
    simp [String.length_append]
  · subst htarget
    unfold extract_snippet
    rw [if_neg (by omega)]
    dsimp only []
    rw [hslice]
    apply congrArg some
    apply String.ext
    simp [String.data_append, List.append_assoc, caret_run]

/-- Closed witness for C8 (amended): `entity Usr` at column 8 renders the
line and three carets under `Usr`. -/
theorem c8_snippet_rendering_witness :
    drop_bytes ("entity Usr".data) 7 = some ("Usr".data) ∧
    (∃ g1 g2 : String, g1.length = g2.length ∧
      extract_snippet ("entity Usr".data) 1 8 =
        some (g1 ++ String.mk ("entity Usr".data) ++ "\n" ++ g2
          ++ String.mk (List.replicate 7 ' ')
          ++ String.mk (List.replicate (max (caret_run ("Usr".data)) 1) '^'))) :=
  ⟨by decide,
    c8_snippet_rendering ("entity Usr".data) ("entity Usr".data) ("Usr".data) 1 8
      (by decide) (by decide) (by decide) (by decide) (by decide)⟩

/-! ### The topological sort: invariants of successful runs -/

theorem indexOf_append_self (l : List String) (c : String) (h : c ∉ l) :
    (l ++ [c]).indexOf c = l.length := by
  induction l with
  | nil => simp
  | cons x xs ih =>
    rw [List.cons_append, List.indexOf_cons, List.length_cons]
    have hxc : (x == c) = false := by
      simp only [beq_eq_false_iff_ne]
      intro he
      exact h (he ▸ List.mem_cons_self x xs)
    rw [hxc, cond_false, ih (fun hm => h (List.mem_cons_of_mem x hm))]

/-- Every dependency call is an entity name, differs from `current`, and
witnesses a HasMany edge into `current`. -/
theorem dep_calls_mem (s : Schema) (c d : String) (hd : d ∈ dep_calls s c) :
    d ∈ entity_names s ∧ d ≠ c ∧ hm_edge s d c := by
  unfold dep_calls at hd
  rw [List.mem_flatMap] at hd
  obtain ⟨o, ho, hd⟩ := hd
  split at hd
  · exact absurd hd (List.not_mem_nil _)
  · rename_i honc
    rw [List.mem_filterMap] at hd
    obtain ⟨p, hp, hd⟩ := hd
    split at hd
    · rename_i hcond
      rw [Option.some.injEq] at hd
      subst hd
      exact ⟨List.mem_map_of_mem (fun e => e.name) ho, honc,
        ⟨o, ho, rfl, p, hp, hcond.1, hcond.2⟩⟩
    · exact absurd hd (by simp)

theorem mem_dep_calls_of_edge (s : Schema) (d c : String) (h : hm_edge s d c)
    (hne : d ≠ c) : d ∈ dep_calls s c := by
  obtain ⟨e, he, hname, p, hp, hkind, htgt⟩ := h
  unfold dep_calls
  rw [List.mem_flatMap]
  refine ⟨e, he, ?_⟩
  rw [if_neg (by rw [hname]; exact hne), List.mem_filterMap]
  exact ⟨p, hp, by rw [if_pos ⟨hkind, htgt⟩, hname]⟩

/-- The generic step property a depth-`fuel` call of `topo_sort` enjoys on
success; `run_deps_ok_props` lifts it over a dependency list. -/
theorem run_deps_ok_props (s : Schema)
    (f : String → TopoState → Option (Except MigrationError TopoState))
    (hf : ∀ d st st2, f d st = some (.ok st2) → TopoInv s st → d ∈ entity_names s →
      TopoInv s st2 ∧ st2.in_stack = st.in_stack ∧ (st.order <+: st2.order) ∧
        d ∈ st2.order ∧ (∀ x ∈ st2.order, x ∈ st.order ∨ x ∉ st.in_stack)) :
    ∀ ds st st2, run_deps f ds st = some (.ok st2) → TopoInv s st →
      (∀ d ∈ ds, d ∈ entity_names s) →
      TopoInv s st2 ∧ st2.in_stack = st.in_stack ∧ (st.order <+: st2.order) ∧
        (∀ d ∈ ds, d ∈ st2.order) ∧
        (∀ x ∈ st2.order, x ∈ st.order ∨ x ∉ st.in_stack) := by
  intro ds
  induction ds with
  | nil =>
    intro st st2 h hinv _
    unfold run_deps at h
    rw [Option.some.injEq, Except.ok.injEq] at h
    subst h
    exact ⟨hinv, rfl, List.prefix_refl _, by simp, fun x hx => Or.inl hx⟩
  | cons d ds ih =>
    intro st st2 h hinv hmem
    unfold run_deps at h
    cases hd : f d st with
    | none => rw [hd] at h; simp at h
    | some r =>
      cases r with
      | error e => rw [hd] at h; simp at h
      | ok st1 =>
        rw [hd] at h
        dsimp only [] at h
        obtain ⟨hinv1, hstk1, hpre1, hdmem, hnew1⟩ :=
          hf d st st1 hd hinv (hmem d (List.mem_cons_self d ds))
        obtain ⟨hinv2, hstk2, hpre2, hds2, hnew2⟩ :=
          ih st1 st2 h hinv1 (fun d2 hd2 => hmem d2 (List.mem_cons_of_mem _ hd2))
        refine ⟨hinv2, hstk2.trans hstk1, hpre1.trans hpre2, ?_, ?_⟩
        · intro d2 hd2
          rw [List.mem_cons] at hd2
          rcases hd2 with rfl | hd2
          · exact hpre2.subset hdmem
          · exact hds2 d2 hd2
        · intro x hx
          rcases hnew2 x hx with hx1 | hx1
          · rcases hnew1 x hx1 with hh | hh
            · exact Or.inl hh
            · exact Or.inr hh
          · rw [hstk1] at hx1
            exact Or.inr hx1

/-- A successful `topo_sort` call preserves the invariant and the recursion
stack, only appends to the order, puts `current` on the order, and appends
only names that were not on the entry stack. -/
theorem topo_sort_ok_props (s : Schema) :
    ∀ fuel c st st2, topo_sort s fuel c st = some (.ok st2) → TopoInv s st →
      c ∈ entity_names s →
      TopoInv s st2 ∧ st2.in_stack = st.in_stack ∧ (st.order <+: st2.order) ∧
        c ∈ st2.order ∧ (∀ x ∈ st2.order, x ∈ st.order ∨ x ∉ st.in_stack) := by
  intro fuel
  induction fuel with
  | zero => intro c st st2 h; exact absurd h (by simp [topo_sort])
  | succ fuel ih =>
    intro c st st2 h hinv hc
    unfold topo_sort at h
    by_cases h1 : c ∈ st.in_stack
    · rw [if_pos h1] at h; simp at h
    · rw [if_neg h1] at h
      by_cases h2 : c ∈ st.visited
      · rw [if_pos h2] at h
        rw [Option.some.injEq, Except.ok.injEq] at h
        subst h
        exact ⟨hinv, rfl, List.prefix_refl _, hinv.1 ▸ h2, fun x hx => Or.inl hx⟩
      · rw [if_neg h2] at h
        cases hrun : run_deps (topo_sort s fuel) (dep_calls s c)
            { st with in_stack := st.in_stack ++ [c] } with
        | none => rw [hrun] at h; simp at h
        | some r =>
          cases r with
          | error e => rw [hrun] at h; simp at h
          | ok stmid =>
            rw [hrun] at h
            rw [Option.some.injEq, Except.ok.injEq] at h
            subst h
            have hds : ∀ d ∈ dep_calls s c, d ∈ entity_names s :=
              fun d hd => (dep_calls_mem s c d hd).1
            obtain ⟨hinvm, hstkm, hprem, hdsm, hnewm⟩ :=
              run_deps_ok_props s (topo_sort s fuel) ih (dep_calls s c) _ stmid
                hrun hinv hds
            have hc_not : c ∉ stmid.order := by
              intro hcm
              rcases hnewm c hcm with hco | hcs
              · rw [hinv.1] at h2
                exact h2 hco
              · exact hcs (List.mem_append_right _ (List.mem_singleton_self c))
            have hord : order_respects_deps s (stmid.order ++ [c]) := by
              intro a ha d hd
              rw [List.mem_append] at ha
              rcases ha with ha | ha
              · obtain ⟨hdmem, hdlt⟩ := hinvm.2.2.2 a ha d hd
                exact ⟨List.mem_append_left _ hdmem, by
                  rw [List.indexOf_append_of_mem hdmem, List.indexOf_append_of_mem ha]
                  exact hdlt⟩
              · rw [List.mem_singleton] at ha
                subst ha
                have hdm : d ∈ stmid.order := hdsm d hd
                refine ⟨List.mem_append_left _ hdm, ?_⟩
                rw [List.indexOf_append_of_mem hdm, indexOf_append_self _ _ hc_not]
                exact List.indexOf_lt_length.mpr hdm
            refine ⟨⟨?_, ?_, ?_, hord⟩, ?_, ?_, ?_, ?_⟩
            · dsimp only []
              rw [hinvm.1]
            · dsimp only []
              rw [List.nodup_append]
              exact ⟨hinvm.2.1, List.nodup_singleton c,
                fun x hx hxc => hc_not ((List.mem_singleton.mp hxc) ▸ hx)⟩
            · intro n hn
              rw [List.mem_append] at hn
              rcases hn with hn | hn
              · exact hinvm.2.2.1 n hn
              · rw [List.mem_singleton] at hn
                subst hn
                exact hc
            · dsimp only []
              rw [hstkm]
              exact List.dropLast_concat
            · exact hprem.trans (List.prefix_append _ _)
            · exact List.mem_append_right _ (List.mem_singleton_self c)
            · intro x hx
              rw [List.mem_append] at hx
              rcases hx with hx | hx
              · rcases hnewm x hx with hh | hh
                · exact Or.inl hh
                · exact Or.inr (fun hmem2 => hh (List.mem_append_left _ hmem2))
              · rw [List.mem_singleton] at hx
                subst hx
                exact Or.inr h1

/-! ### The topological sort: stack preservation, fuel sufficiency,
error soundness -/

theorem run_deps_ok_stack
    (f : String → TopoState → Option (Except MigrationError TopoState))
    (hf : ∀ d st st2, f d st = some (.ok st2) → st2.in_stack = st.in_stack) :
    ∀ ds st st2, run_deps f ds st = some (.ok st2) → st2.in_stack = st.in_stack := by
  intro ds
  induction ds with
  | nil =>
    intro st st2 h
    unfold run_deps at h
    rw [Option.some.injEq, Except.ok.injEq] at h
    subst h
    rfl
  | cons d ds ih =>
    intro st st2 h
    unfold run_deps at h
    cases hd : f d st with
    | none => rw [hd] at h; simp at h
    | some r =>
      cases r with
      | error e => rw [hd] at h; simp at h
      | ok st1 =>
        rw [hd] at h
        dsimp only [] at h
        exact (ih st1 st2 h).trans (hf d st st1 hd)

/-- A successful `topo_sort` call restores the recursion stack (the Rust
`in_stack.pop()` balances the entry push on every `Ok` path). -/
theorem topo_sort_ok_stack (s : Schema) :
    ∀ fuel c st st2, topo_sort s fuel c st = some (.ok st2) →
      st2.in_stack = st.in_stack := by
  intro fuel
  induction fuel with
  | zero => intro c st st2 h; exact absurd h (by simp [topo_sort])
  | succ fuel ih =>
    intro c st st2 h
    unfold topo_sort at h
    by_cases h1 : c ∈ st.in_stack
    · rw [if_pos h1] at h; simp at h
    · rw [if_neg h1] at h
      by_cases h2 : c ∈ st.visited
      · rw [if_pos h2] at h
        rw [Option.some.injEq, Except.ok.injEq] at h
        subst h
        rfl
      · rw [if_neg h2] at h
        cases hrun : run_deps (topo_sort s fuel) (dep_calls s c)
            { st with in_stack := st.in_stack ++ [c] } with
        | none => rw [hrun] at h; simp at h
        | some r =>
          cases r with
          | error e => rw [hrun] at h; simp at h
          | ok stmid =>
            rw [hrun] at h
            rw [Option.some.injEq, Except.ok.injEq] at h
            subst h
            have := run_deps_ok_stack (topo_sort s fuel) ih (dep_calls s c) _ stmid hrun
            dsimp only []
            rw [this]
            exact List.dropLast_concat

theorem nodup_subset_length_le (l m : List String) (hnd : l.Nodup)
    (hsub : ∀ x ∈ l, x ∈ m) : l.length ≤ m.dedup.length := by
  have h1 : l.toFinset ⊆ m.toFinset :=
    fun x hx => List.mem_toFinset.mpr (hsub x (List.mem_toFinset.mp hx))
  have h2 := Finset.card_le_card h1
  rw [List.toFinset_card_of_nodup hnd, List.card_toFinset] at h2
  exact h2

/-- Fuel sufficiency: with more fuel than the number of distinct entity
names not yet on the (duplicate-free) recursion stack, `topo_sort` cannot
run out of fuel — the stack grows by one distinct entity name per nested
call. -/
theorem topo_sort_no_fuel (s : Schema) :
    ∀ fuel c st, c ∈ entity_names s → st.in_stack.Nodup →
      (∀ x ∈ st.in_stack, x ∈ entity_names s) →
      (entity_names s).dedup.length + 1 ≤ fuel + st.in_stack.length →
      topo_sort s fuel c st ≠ none := by
  intro fuel
  induction fuel with
  | zero =>
    intro c st _ hnd hsub hbound
    exfalso
    have := nodup_subset_length_le st.in_stack (entity_names s) hnd hsub
    omega
  | succ fuel ih =>
    intro c st hc hnd hsub hbound
    unfold topo_sort
    by_cases h1 : c ∈ st.in_stack
    · rw [if_pos h1]; simp
    · rw [if_neg h1]
      by_cases h2 : c ∈ st.visited
      · rw [if_pos h2]; simp
      · rw [if_neg h2]
        have hstk1 : ({ st with in_stack := st.in_stack ++ [c] } : TopoState).in_stack
            = st.in_stack ++ [c] := rfl
        have hgen : ∀ ds st2, (∀ d ∈ ds, d ∈ entity_names s) →
            st2.in_stack = st.in_stack ++ [c] →
            run_deps (topo_sort s fuel) ds st2 ≠ none := by
          intro ds
          induction ds with
          | nil => intro st2 _ _; unfold run_deps; simp
          | cons d ds ihds =>
            intro st2 hds hstk2
            unfold run_deps
            cases hcall : topo_sort s fuel d st2 with
            | none =>
              exfalso
              refine ih d st2 (hds d (List.mem_cons_self d ds)) ?_ ?_ ?_ hcall
              · rw [hstk2, List.nodup_append]
                exact ⟨hnd, List.nodup_singleton c,
                  fun x hx hxc => h1 ((List.mem_singleton.mp hxc) ▸ hx)⟩
              · rw [hstk2]
                intro x hx
                rw [List.mem_append] at hx
                rcases hx with hx | hx
                · exact hsub x hx
                · rw [List.mem_singleton] at hx
                  subst hx
                  exact hc
              · rw [hstk2, List.length_append, List.length_singleton]
                omega
            | some r =>
              cases r with
              | error e => simp
              | ok st3 =>
                dsimp only []
                exact ihds st3 (fun d2 hd2 => hds d2 (List.mem_cons_of_mem _ hd2))
                  ((topo_sort_ok_stack s fuel d st2 st3 hcall).trans hstk2)
        cases hrun : run_deps (topo_sort s fuel) (dep_calls s c)
            { st with in_stack := st.in_stack ++ [c] } with
        | none =>
          exact absurd hrun
            (hgen (dep_calls s c) _ (fun d hd => (dep_calls_mem s c d hd).1) hstk1)
        | some r => cases r <;> simp

theorem run_deps_error_shape
    (f : String → TopoState → Option (Except MigrationError TopoState))
    (hf : ∀ d st e, f d st = some (.error e) → ∃ n, e = .circularDependency n) :
    ∀ ds st e, run_deps f ds st = some (.error e) → ∃ n, e = .circularDependency n := by
  intro ds
  induction ds with
  | nil => intro st e h; unfold run_deps at h; simp at h
  | cons d ds ih =>
    intro st e h
    unfold run_deps at h
    cases hd : f d st with
    | none => rw [hd] at h; simp at h
    | some r =>
      cases r with
      | error e2 =>
        rw [hd] at h
        dsimp only [] at h
        rw [Option.some.injEq, Except.error.injEq] at h
        subst h
        exact hf d st _ hd
      | ok st1 =>
        rw [hd] at h
        dsimp only [] at h
        exact ih st1 e h

/-- Every error `topo_sort` produces is a `CircularDependency` (the Rust
code constructs no other variant). -/
theorem topo_sort_error_shape (s : Schema) :
    ∀ fuel c st e, topo_sort s fuel c st = some (.error e) →
      ∃ n, e = .circularDependency n := by
  intro fuel
  induction fuel with
  | zero => intro c st e h; exact absurd h (by simp [topo_sort])
  | succ fuel ih =>
    intro c st e h
    unfold topo_sort at h
    by_cases h1 : c ∈ st.in_stack
    · rw [if_pos h1] at h
      rw [Option.some.injEq, Except.error.injEq] at h
      exact ⟨c, h.symm⟩
    · rw [if_neg h1] at h
      by_cases h2 : c ∈ st.visited
      · rw [if_pos h2] at h; simp at h
      · rw [if_neg h2] at h
        cases hrun : run_deps (topo_sort s fuel) (dep_calls s c)
            { st with in_stack := st.in_stack ++ [c] } with
        | none => rw [hrun] at h; simp at h
        | some r =>
          cases r with
          | error e2 =>
            rw [hrun] at h
            dsimp only [] at h
            rw [Option.some.injEq, Except.error.injEq] at h
            subst h
            exact run_deps_error_shape (topo_sort s fuel) ih (dep_calls s c) _ e2 hrun
          | ok stmid => rw [hrun] at h; simp at h

/-! ### The topological sort: a reported cycle is a real cycle -/

/-- Walking the recursion stack from its top reaches every stack element
through dependency edges. -/
theorem chain_last_reaches (s : Schema) (l : List String) :
    List.Chain' (fun a b => b ∈ dep_calls s a) l →
    ∀ x ∈ l, ∀ g ∈ l.getLast?,
      Relation.ReflTransGen (fun a b => a ∈ dep_calls s b) g x := by
  induction l using List.reverseRecOn with
  | nil => intro _ x hx; exact absurd hx (List.not_mem_nil x)
  | append_singleton l a ih =>
    intro hchain x hx g hg
    rw [List.getLast?_concat] at hg
    rw [Option.mem_def, Option.some.injEq] at hg
    subst hg
    rw [List.mem_append] at hx
    rcases hx with hx | hx
    · have hl : l ≠ [] := fun he => by
        subst he
        exact absurd hx (List.not_mem_nil x)
      rw [List.chain'_append] at hchain
      obtain ⟨hc1, _, hlink⟩ := hchain
      have hglast : l.getLast? = some (l.getLast hl) := List.getLast?_eq_getLast l hl
      have hedge : a ∈ dep_calls s (l.getLast hl) := by
        exact hlink (l.getLast hl) hglast a rfl
      exact Relation.ReflTransGen.head hedge (ih hc1 x hx (l.getLast hl) hglast)
    · rw [List.mem_singleton] at hx
      subst hx
      exact Relation.ReflTransGen.refl

theorem run_deps_no_error (s : Schema) (hacyc : hm_acyclic s) (fuel : Nat)
    (hf : ∀ c st, List.Chain' (fun a b => b ∈ dep_calls s a) st.in_stack →
      (∀ g ∈ st.in_stack.getLast?, c ∈ dep_calls s g) →
      ∀ e, topo_sort s fuel c st ≠ some (.error e)) :
    ∀ ds st, List.Chain' (fun a b => b ∈ dep_calls s a) st.in_stack →
      (∀ d ∈ ds, ∀ g ∈ st.in_stack.getLast?, d ∈ dep_calls s g) →
      ∀ e, run_deps (topo_sort s fuel) ds st ≠ some (.error e) := by
  intro ds
  induction ds with
  | nil => intro st _ _ e; unfold run_deps; simp
  | cons d ds ih =>
    intro st hchain hds e
    unfold run_deps
    cases hd : topo_sort s fuel d st with
    | none => simp
    | some r =>
      cases r with
      | error e2 =>
        dsimp only []
        intro h
        rw [Option.some.injEq, Except.error.injEq] at h
        subst h
        exact hf d st hchain (hds d (List.mem_cons_self d ds)) _ hd
      | ok st1 =>
        dsimp only []
        have hstk := topo_sort_ok_stack s fuel d st st1 hd
        refine ih st1 ?_ ?_ e
        · rw [hstk]
          exact hchain
        · intro d2 hd2 g hg
          rw [hstk] at hg
          exact hds d2 (List.mem_cons_of_mem _ hd2) g hg

/-- Under an acyclic HasMany dependency graph, `topo_sort` never reports a
circular dependency: an error arises only when the current name is already
on the recursion stack, and the stack chain then closes a real cycle. -/
theorem topo_sort_no_error (s : Schema) (hacyc : hm_acyclic s) :
    ∀ fuel c st, List.Chain' (fun a b => b ∈ dep_calls s a) st.in_stack →
      (∀ g ∈ st.in_stack.getLast?, c ∈ dep_calls s g) →
      ∀ e, topo_sort s fuel c st ≠ some (.error e) := by
  intro fuel
  induction fuel with
  | zero => intro c st _ _ e; simp [topo_sort]
  | succ fuel ih =>
    intro c st hchain hlink e
    unfold topo_sort
    by_cases h1 : c ∈ st.in_stack
    · exfalso
      have hne : st.in_stack ≠ [] := fun he => absurd (he ▸ h1) (List.not_mem_nil c)
      have hglast : st.in_stack.getLast? = some (st.in_stack.getLast hne) :=
        List.getLast?_eq_getLast st.in_stack hne
      have hedge : c ∈ dep_calls s (st.in_stack.getLast hne) :=
        hlink (st.in_stack.getLast hne) hglast
      have hreach : Relation.ReflTransGen (fun a b => a ∈ dep_calls s b)
          (st.in_stack.getLast hne) c :=
        chain_last_reaches s st.in_stack hchain c h1 (st.in_stack.getLast hne) hglast
      have hcycle : Relation.TransGen (fun a b => a ∈ dep_calls s b) c c :=
        Relation.TransGen.head' hedge hreach
      have hcycle2 : Relation.TransGen (hm_edge s) c c :=
        Relation.TransGen.mono (fun a b hab => (dep_calls_mem s b a hab).2.2) hcycle
      exact hacyc c hcycle2
    · rw [if_neg h1]
      by_cases h2 : c ∈ st.visited
      · rw [if_pos h2]; simp
      · rw [if_neg h2]
        have hchain1 : List.Chain' (fun a b => b ∈ dep_calls s a)
            (st.in_stack ++ [c]) := by
          rw [List.chain'_append]
          refine ⟨hchain, List.chain'_singleton c, ?_⟩
          intro a ha b hb
          rw [Option.mem_def] at hb
          rw [show ([c] : List String).head? = some c from rfl,
            Option.some.injEq] at hb
          subst hb
          exact hlink a ha
        cases hrun : run_deps (topo_sort s fuel) (dep_calls s c)
            { st with in_stack := st.in_stack ++ [c] } with
        | none => simp
        | some r =>
          cases r with
          | error e2 =>
            dsimp only []
            intro h
            rw [Option.some.injEq, Except.error.injEq] at h
            subst h
            refine run_deps_no_error s hacyc fuel ih (dep_calls s c)
              { st with in_stack := st.in_stack ++ [c] } hchain1 ?_ _ hrun
            intro d hd g hg
            rw [show ({ st with in_stack := st.in_stack ++ [c] } : TopoState).in_stack
              = st.in_stack ++ [c] from rfl, List.getLast?_concat] at hg
            rw [Option.mem_def, Option.some.injEq] at hg
            subst hg
            exact hd
          | ok stmid => simp

/-! ### Creation order and full generation -/

theorem resolve_roots_props (s : Schema) :
    ∀ es st, TopoInv s st → st.in_stack = [] → (∀ e ∈ es, e ∈ s.entities) →
      (∃ stf, resolve_roots s es st = some (.ok stf) ∧ TopoInv s stf ∧
        st.order <+: stf.order ∧ stf.in_stack = [] ∧
        (∀ e ∈ es, e.name ∈ stf.order)) ∨
      (∃ n, resolve_roots s es st = some (.error (.circularDependency n))) := by
  intro es
  induction es with
  | nil =>
    intro st hinv hstk _
    left
    exact ⟨st, rfl, hinv, List.prefix_refl _, hstk, by simp⟩
  | cons e es ih =>
    intro st hinv hstk hmem
    unfold resolve_roots
    by_cases hv : e.name ∈ st.visited
    · rw [if_pos hv]
      rcases ih st hinv hstk (fun x hx => hmem x (List.mem_cons_of_mem _ hx)) with
        ⟨stf, h1, h2, h3, h4, h5⟩ | ⟨n, hn⟩
      · left
        refine ⟨stf, h1, h2, h3, h4, ?_⟩
        intro e2 he2
        rw [List.mem_cons] at he2
        rcases he2 with rfl | he2
        · exact h3.subset (hinv.1 ▸ hv)
        · exact h5 e2 he2
      · right
        exact ⟨n, hn⟩
    · rw [if_neg hv]
      have hein : e.name ∈ entity_names s :=
        List.mem_map_of_mem _ (hmem e (List.mem_cons_self e es))
      cases hts : topo_sort s (topo_fuel s) e.name st with
      | none =>
        exfalso
        refine topo_sort_no_fuel s (topo_fuel s) e.name st hein ?_ ?_ ?_ hts
        · rw [hstk]
          exact List.nodup_nil
        · rw [hstk]
          simp
        · rw [hstk]
          unfold topo_fuel
          have hd1 : (entity_names s).dedup.length ≤ (entity_names s).length :=
            (List.dedup_sublist _).length_le
          have hd2 : (entity_names s).length = s.entities.length := by
            unfold entity_names
            rw [List.length_map]
          simp only [List.length_nil]
          omega
      | some r =>
        cases r with
        | error err =>
          obtain ⟨n, hn⟩ := topo_sort_error_shape s (topo_fuel s) e.name st err hts
          subst hn
          right
          exact ⟨n, rfl⟩
        | ok st1 =>
          obtain ⟨hinv1, hstk1, hpre1, hname1, _⟩ :=
            topo_sort_ok_props s (topo_fuel s) e.name st st1 hts hinv hein
          have hstk1e : st1.in_stack = [] := by rw [hstk1, hstk]
          rcases ih st1 hinv1 hstk1e (fun x hx => hmem x (List.mem_cons_of_mem _ hx)) with
            ⟨stf, h1, h2, h3, h4, h5⟩ | ⟨n, hn⟩
          · left
            refine ⟨stf, h1, h2, hpre1.trans h3, h4, ?_⟩
            intro e2 he2
            rw [List.mem_cons] at he2
            rcases he2 with rfl | he2
            · exact h3.subset hname1
            · exact h5 e2 he2
          · right
            exact ⟨n, hn⟩

theorem resolve_roots_no_error (s : Schema) (hacyc : hm_acyclic s) :
    ∀ es st e, st.in_stack = [] → resolve_roots s es st ≠ some (.error e) := by
  intro es
  induction es with
  | nil =>
    intro st e _
    unfold resolve_roots
    simp
  | cons x es ih =>
    intro st e hstk
    unfold resolve_roots
    by_cases hv : x.name ∈ st.visited
    · rw [if_pos hv]
      exact ih st e hstk
    · rw [if_neg hv]
      cases hts : topo_sort s (topo_fuel s) x.name st with
      | none => simp
      | some r =>
        cases r with
        | error err =>
          exfalso
          refine topo_sort_no_error s hacyc (topo_fuel s) x.name st ?_ ?_ err hts
          · rw [hstk]
            exact List.chain'_nil
          · intro g hg
            rw [hstk] at hg
            simp at hg
        | ok st1 =>
          dsimp only []
          exact ih st1 e ((topo_sort_ok_stack s (topo_fuel s) x.name st st1 hts).trans hstk)

theorem get_entity_of_mem_names (s : Schema) (n : String) (h : n ∈ entity_names s) :
    ∃ e, s.get_entity n = some e := by
  unfold entity_names at h
  rw [List.mem_map] at h
  obtain ⟨e, he, hn⟩ := h
  have : (s.entities.find? (fun e2 => e2.name = n)).isSome := by
    rw [List.find?_isSome]
    exact ⟨e, he, by simp [hn]⟩
  exact Option.isSome_iff_exists.mp this

theorem mapM_statements (s : Schema) :
    ∀ ord : List String, (∀ n ∈ ord, ∃ e, s.get_entity n = some e) →
      ∃ stmts, ord.mapM (fun n => (s.get_entity n).map
          (fun e => (n, generate_create_table e s))) = some stmts ∧
        stmts.map Prod.fst = ord := by
  intro ord
  induction ord with
  | nil => exact fun _ => ⟨[], rfl, rfl⟩
  | cons n ns ih =>
    intro h
    obtain ⟨e, he⟩ := h n (List.mem_cons_self n ns)
    obtain ⟨stmts, hs, hmap⟩ := ih (fun n2 h2 => h n2 (List.mem_cons_of_mem _ h2))
    refine ⟨(n, generate_create_table e s) :: stmts, ?_, ?_⟩
    · rw [List.mapM_cons, he, hs]
      rfl
    · rw [List.map_cons, hmap]

/-- C10: `generate_migration` returns either `Ok` or
`Err(CircularDependency _)`: the `UnknownEntity` variant is never produced,
the per-name entity lookup always succeeds (every name in the resolved
order is an entity name), and statement generation never fails after
ordering succeeds. -/
theorem c10_ok_or_circular (s : Schema) :
    (∃ m, generate_migration s = some (.ok m)) ∨
    (∃ n, generate_migration s = some (.error (.circularDependency n))) := by
  have hinv0 : TopoInv s ⟨[], [], []⟩ :=
    ⟨rfl, List.nodup_nil, by simp, by intro a ha; exact absurd ha (List.not_mem_nil a)⟩
  rcases resolve_roots_props s s.entities ⟨[], [], []⟩ hinv0 rfl (fun _ he => he) with
    ⟨stf, h1, h2, _, _, _⟩ | ⟨n, hn⟩
  · obtain ⟨stmts, hst, _⟩ := mapM_statements s stf.order
      (fun n hn => get_entity_of_mem_names s n (h2.2.2.1 n hn))
    left
    refine ⟨⟨String.intercalate "\n\n" (stmts.map (fun p => p.2)), stmts⟩, ?_⟩
    unfold generate_migration resolve_creation_order
    rw [h1]
    dsimp only []
    rw [hst]
  · right
    refine ⟨n, ?_⟩
    unfold generate_migration resolve_creation_order
    rw [hn]

/-- C1: for every schema whose HasMany dependency graph is acyclic,
`generate_migration` succeeds, every entity gets a statement, and in the
statement order every entity that declares a HasMany relation appears
strictly before that relation's target entity. -/
theorem c1_topological_order (s : Schema) (hacyc : hm_acyclic s) :
    ∃ m, generate_migration s = some (.ok m) ∧
      (∀ e ∈ s.entities, e.name ∈ m.statements.map Prod.fst) ∧
      (∀ o ∈ s.entities, ∀ p ∈ o.relations, p.2.kind = .hasMany →
        ∀ t ∈ s.entities, t.name = p.2.target_entity →
          (m.statements.map Prod.fst).indexOf o.name <
            (m.statements.map Prod.fst).indexOf t.name) := by
  have hinv0 : TopoInv s ⟨[], [], []⟩ :=
    ⟨rfl, List.nodup_nil, by simp, by intro a ha; exact absurd ha (List.not_mem_nil a)⟩
  rcases resolve_roots_props s s.entities ⟨[], [], []⟩ hinv0 rfl (fun _ he => he) with
    ⟨stf, h1, h2, _, _, h5⟩ | ⟨n, hn⟩
  · obtain ⟨stmts, hst, hmap⟩ := mapM_statements s stf.order
      (fun n hn => get_entity_of_mem_names s n (h2.2.2.1 n hn))
    refine ⟨⟨String.intercalate "\n\n" (stmts.map (fun p => p.2)), stmts⟩, ?_, ?_, ?_⟩
    · unfold generate_migration resolve_creation_order
      rw [h1]
      dsimp only []
      rw [hst]
    · intro e he
      show e.name ∈ stmts.map Prod.fst
      rw [hmap]
      exact h5 e he
    · intro o ho p hp hk t ht htn
      have hedge : hm_edge s o.name t.name := ⟨o, ho, rfl, p, hp, hk, htn.symm⟩
      have hne : o.name ≠ t.name := by
        intro he
        exact hacyc t.name (Relation.TransGen.single (he ▸ hedge))
      have hdc : o.name ∈ dep_calls s t.name :=
        mem_dep_calls_of_edge s o.name t.name hedge hne
      obtain ⟨homem, hlt⟩ := h2.2.2.2 t.name (h5 t ht) o.name hdc
      show (stmts.map Prod.fst).indexOf o.name < (stmts.map Prod.fst).indexOf t.name
      rw [hmap]
      exact hlt
  · exact absurd hn
      (resolve_roots_no_error s hacyc s.entities ⟨[], [], []⟩ (.circularDependency n) rfl)

/-- The Scenario-C schema's only HasMany edge is `User → Order`, so its
dependency graph is acyclic. -/
theorem user_order_acyclic : hm_acyclic user_order_schema := by
  have hedge : ∀ a b, hm_edge user_order_schema a b → a = "User" ∧ b = "Order" := by
    intro a b hab
    obtain ⟨e, he, hname, p, hp, hk, ht⟩ := hab
    simp only [user_order_schema, List.mem_cons, List.not_mem_nil, or_false] at he
    rcases he with rfl | rfl
    · simp [order_entity] at hp
    · simp only [user_entity, List.mem_cons, List.not_mem_nil, or_false] at hp
      subst hp
      exact ⟨hname.symm.trans rfl, ht.symm.trans rfl⟩
  intro n h
  obtain ⟨c, h1, h2⟩ := Relation.TransGen.head'_iff.mp h
  obtain ⟨ha, hc⟩ := hedge n c h1
  rcases Relation.ReflTransGen.cases_head h2 with rfl | ⟨d, h3, _⟩
  · exact absurd (ha.symm.trans hc) (by decide)
  · obtain ⟨hc2, _⟩ := hedge c d h3
    exact absurd (hc.symm.trans hc2) (by decide)

/-- Closed witness for C1 at the Scenario-C schema (declared in the order
Order, User: the sort must still put User first). -/
theorem c1_topological_order_witness :
    hm_acyclic user_order_schema ∧
    (∃ m, generate_migration user_order_schema = some (.ok m) ∧
      (∀ e ∈ user_order_schema.entities, e.name ∈ m.statements.map Prod.fst) ∧
      (∀ o ∈ user_order_schema.entities, ∀ p ∈ o.relations, p.2.kind = .hasMany →
        ∀ t ∈ user_order_schema.entities, t.name = p.2.target_entity →
          (m.statements.map Prod.fst).indexOf o.name <
            (m.statements.map Prod.fst).indexOf t.name)) :=
  ⟨user_order_acyclic, c1_topological_order user_order_schema user_order_acyclic⟩

/-! ### C4: the cycle pass of the type checker -/

/-- C4 counterexample: `A ↔ B` (via HasOne both ways) is one connected
cyclic component; `C → A` makes a second DFS root reach it.  Because the
early `return` of a found cycle skips the `in_stack.pop()` calls, the stack
is not unwound after the first report, and the root traversal from `C`
reports the same component a second time: the single component yields
**two** `CircularDependency` errors. -/
theorem c4_counterexample :
    check_circular_dependencies c4_cx_schema =
      some [TypeCheckError.circularDependency ["A", "B", "A"],
            TypeCheckError.circularDependency ["A", "B", "C", "A"]] := by decide

theorem check_circ_loop_count (s : Schema) :
    ∀ roots v stk errs0 errs, check_circ_loop s roots v stk errs0 = some errs →
      errs.length ≤ errs0.length + roots.length := by
  intro roots
  induction roots with
  | nil =>
    intro v stk errs0 errs h
    unfold check_circ_loop at h
    rw [Option.some.injEq] at h
    subst h
    simp
  | cons name rest ih =>
    intro v stk errs0 errs h
    unfold check_circ_loop at h
    split at h
    · have := ih _ _ _ _ h
      rw [List.length_cons]
      omega
    · split at h
      · exact absurd h (by simp)
      · have := ih _ _ _ _ h
        rw [List.length_append, List.length_singleton] at this
        rw [List.length_cons]
        omega
      · have := ih _ _ _ _ h
        rw [List.length_cons]
        omega

/-- C4 (amended): the pass continues to further DFS root traversals after
finding a cycle, each root traversal appends at most one
`CircularDependency` error (so the error list never exceeds the number of
entities, and every reported error is a `CircularDependency`); but a single
connected cyclic component can be reported once per root whose traversal
reaches it, because the recursion stack is not unwound when a found cycle
propagates out (counterexample above). -/
theorem c4_cycle_pass_bounds (s : Schema) (errs : List TypeCheckError)
    (hc : check_circular_dependencies s = some errs) :
    errs.length ≤ s.entities.length ∧
    ∀ x ∈ errs, ∃ cyc, x = TypeCheckError.circularDependency cyc := by
  constructor
  · have hc2 : check_circ_loop s (s.entities.map (fun e => e.name)) [] [] [] = some errs := hc
    have := check_circ_loop_count s (s.entities.map (fun e => e.name)) [] [] [] errs hc2
    rw [List.length_nil, List.length_map] at this
    omega
  · intro x hx
    have := check_circular_dependencies_shape s errs hc x hx
    cases x <;> simp [is_circ_err] at this ⊢

/-- Closed witness for C4 (amended), at the two-root counterexample
schema. -/
theorem c4_cycle_pass_bounds_witness :
    ∃ errs, check_circular_dependencies c4_cx_schema = some errs ∧
      errs.length ≤ c4_cx_schema.entities.length ∧
      ∀ x ∈ errs, ∃ cyc, x = TypeCheckError.circularDependency cyc := by
  refine ⟨_, rfl, ?_⟩
  exact c4_cycle_pass_bounds c4_cx_schema _ rfl

/-! ### Totality of `type_check`: the cycle pass never runs out of fuel -/

theorem target_mem_tc_nodes (s : Schema) (e : Entity) (p : String × Relation)
    (he : e ∈ s.entities) (hp : p ∈ e.relations) :
    p.2.target_entity ∈ tc_nodes s := by
  unfold tc_nodes
  rw [List.mem_append]
  right
  rw [List.mem_flatMap]
  exact ⟨e, he, List.mem_map_of_mem _ hp⟩

/-- Visited-list bookkeeping of a completed `dfs` call: the result extends
the entry list, stays duplicate-free and stays inside `tc_nodes`. -/
theorem tc_dfs_props (s : Schema) :
    ∀ fuel cur v stk oc v2 stk2,
      tc_dfs s fuel cur v stk = some (oc, v2, stk2) →
      cur ∈ tc_nodes s → cur ∉ v → v.Nodup → (∀ x ∈ v, x ∈ tc_nodes s) →
      v2.Nodup ∧ (∀ x ∈ v2, x ∈ tc_nodes s) ∧ (∃ ex, v2 = v ++ ex) := by
  intro fuel
  induction fuel with
  | zero => intro cur v stk oc v2 stk2 h; exact absurd h (by simp [tc_dfs])
  | succ fuel ih =>
    intro cur v stk oc v2 stk2 h hcur hnotv hnd hsub
    unfold tc_dfs at h
    dsimp only [] at h
    have hnd1 : (v ++ [cur]).Nodup := by
      rw [List.nodup_append]
      exact ⟨hnd, List.nodup_singleton cur,
        fun x hx hxc => hnotv ((List.mem_singleton.mp hxc) ▸ hx)⟩
    have hsub1 : ∀ x ∈ v ++ [cur], x ∈ tc_nodes s := by
      intro x hx
      rw [List.mem_append] at hx
      rcases hx with hx | hx
      · exact hsub x hx
      · rw [List.mem_singleton] at hx
        subst hx
        exact hcur
    cases hge : s.get_entity cur with
    | none =>
      rw [hge] at h
      dsimp only [] at h
      rw [Option.some.injEq, Prod.mk.injEq, Prod.mk.injEq] at h
      obtain ⟨-, h2, -⟩ := h
      subst h2
      exact ⟨hnd1, hsub1, [cur], rfl⟩
    | some entity =>
      rw [hge] at h
      dsimp only [] at h
      have hent : entity ∈ s.entities := List.mem_of_find?_eq_some hge
      have htg : ∀ r ∈ entity.relations.map Prod.snd, r.target_entity ∈ tc_nodes s := by
        intro r hr
        rw [List.mem_map] at hr
        obtain ⟨p, hp, hpr⟩ := hr
        subst hpr
        exact target_mem_tc_nodes s entity p hent hp
      have hrels : ∀ rels v3 stk3 oc3 v4 stk4,
          tc_rels (tc_dfs s fuel) rels v3 stk3 = some (oc3, v4, stk4) →
          (∀ r ∈ rels, r.target_entity ∈ tc_nodes s) →
          v3.Nodup → (∀ x ∈ v3, x ∈ tc_nodes s) →
          v4.Nodup ∧ (∀ x ∈ v4, x ∈ tc_nodes s) ∧ (∃ ex, v4 = v3 ++ ex) := by
        intro rels
        induction rels with
        | nil =>
          intro v3 stk3 oc3 v4 stk4 hh _ hnd3 hsub3
          unfold tc_rels at hh
          rw [Option.some.injEq, Prod.mk.injEq, Prod.mk.injEq] at hh
          obtain ⟨-, h2, -⟩ := hh
          subst h2
          exact ⟨hnd3, hsub3, [], (List.append_nil v3).symm⟩
        | cons r rels ihr =>
          intro v3 stk3 oc3 v4 stk4 hh htgs hnd3 hsub3
          unfold tc_rels at hh
          dsimp only [] at hh
          split at hh
          · exact ihr v3 stk3 oc3 v4 stk4 hh
              (fun r2 h2 => htgs r2 (List.mem_cons_of_mem _ h2)) hnd3 hsub3
          · split at hh
            · rename_i hniv
              cases hcall : tc_dfs s fuel r.target_entity v3 stk3 with
              | none => rw [hcall] at hh; simp at hh
              | some res =>
                rw [hcall] at hh
                obtain ⟨oc5, v5, stk5⟩ := res
                obtain ⟨hnd5, hsub5, ex5, hex5⟩ :=
                  ih r.target_entity v3 stk3 oc5 v5 stk5 hcall
                    (htgs r (List.mem_cons_self r rels)) hniv hnd3 hsub3
                cases oc5 with
                | some cyc =>
                  dsimp only [] at hh
                  rw [Option.some.injEq, Prod.mk.injEq, Prod.mk.injEq] at hh
                  obtain ⟨-, h2, -⟩ := hh
                  subst h2
                  exact ⟨hnd5, hsub5, ex5, hex5⟩
                | none =>
                  dsimp only [] at hh
                  obtain ⟨hnd6, hsub6, ex6, hex6⟩ :=
                    ihr v5 stk5 oc3 v4 stk4 hh
                      (fun r2 h2 => htgs r2 (List.mem_cons_of_mem _ h2)) hnd5 hsub5
                  exact ⟨hnd6, hsub6, ex5 ++ ex6,
                    by rw [hex6, hex5, List.append_assoc]⟩
            · split at hh
              · rw [Option.some.injEq, Prod.mk.injEq, Prod.mk.injEq] at hh
                obtain ⟨-, h2, -⟩ := hh
                subst h2
                exact ⟨hnd3, hsub3, [], (List.append_nil v3).symm⟩
              · exact ihr v3 stk3 oc3 v4 stk4 hh
                  (fun r2 h2 => htgs r2 (List.mem_cons_of_mem _ h2)) hnd3 hsub3
      cases hrun : tc_rels (tc_dfs s fuel) (entity.relations.map (fun p => p.2))
          (v ++ [cur]) (stk ++ [cur]) with
      | none => rw [hrun] at h; simp at h
      | some res =>
        rw [hrun] at h
        obtain ⟨oc5, v5, stk5⟩ := res
        obtain ⟨hnd5, hsub5, ex5, hex5⟩ :=
          hrels (entity.relations.map (fun p => p.2)) (v ++ [cur]) (stk ++ [cur])
            oc5 v5 stk5 hrun htg hnd1 hsub1
        cases oc5 with
        | some cyc =>
          dsimp only [] at h
          rw [Option.some.injEq, Prod.mk.injEq, Prod.mk.injEq] at h
          obtain ⟨-, h2, -⟩ := h
          subst h2
          exact ⟨hnd5, hsub5, [cur] ++ ex5, by rw [hex5, List.append_assoc]⟩
        | none =>
          dsimp only [] at h
          rw [Option.some.injEq, Prod.mk.injEq, Prod.mk.injEq] at h
          obtain ⟨-, h2, -⟩ := h
          subst h2
          exact ⟨hnd5, hsub5, [cur] ++ ex5, by rw [hex5, List.append_assoc]⟩

/-- Fuel sufficiency for the type checker's DFS: each nested call visits a
new node, and the visited list is a duplicate-free subset of `tc_nodes`. -/
theorem tc_dfs_no_fuel (s : Schema) :
    ∀ fuel cur v stk, cur ∈ tc_nodes s → cur ∉ v → v.Nodup →
      (∀ x ∈ v, x ∈ tc_nodes s) →
      (tc_nodes s).dedup.length ≤ fuel + v.length →
      tc_dfs s fuel cur v stk ≠ none := by
  intro fuel
  induction fuel with
  | zero =>
    intro cur v stk hcur hnotv hnd hsub hbound
    exfalso
    have hnd1 : (v ++ [cur]).Nodup := by
      rw [List.nodup_append]
      exact ⟨hnd, List.nodup_singleton cur,
        fun x hx hxc => hnotv ((List.mem_singleton.mp hxc) ▸ hx)⟩
    have hsub1 : ∀ x ∈ v ++ [cur], x ∈ tc_nodes s := by
      intro x hx
      rw [List.mem_append] at hx
      rcases hx with hx | hx
      · exact hsub x hx
      · rw [List.mem_singleton] at hx
        subst hx
        exact hcur
    have := nodup_subset_length_le (v ++ [cur]) (tc_nodes s) hnd1 hsub1
    rw [List.length_append, List.length_singleton] at this
    omega
  | succ fuel ih =>
    intro cur v stk hcur hnotv hnd hsub hbound
    unfold tc_dfs
    dsimp only []
    have hnd1 : (v ++ [cur]).Nodup := by
      rw [List.nodup_append]
      exact ⟨hnd, List.nodup_singleton cur,
        fun x hx hxc => hnotv ((List.mem_singleton.mp hxc) ▸ hx)⟩
    have hsub1 : ∀ x ∈ v ++ [cur], x ∈ tc_nodes s := by
      intro x hx
      rw [List.mem_append] at hx
      rcases hx with hx | hx
      · exact hsub x hx
      · rw [List.mem_singleton] at hx
        subst hx
        exact hcur
    cases hge : s.get_entity cur with
    | none => simp
    | some entity =>
      have hent : entity ∈ s.entities := List.mem_of_find?_eq_some hge
      have htg : ∀ r ∈ entity.relations.map Prod.snd, r.target_entity ∈ tc_nodes s := by
        intro r hr
        rw [List.mem_map] at hr
        obtain ⟨p, hp, hpr⟩ := hr
        subst hpr
        exact target_mem_tc_nodes s entity p hent hp
      have hrels : ∀ rels v3 stk3,
          (∀ r ∈ rels, r.target_entity ∈ tc_nodes s) →
          v3.Nodup → (∀ x ∈ v3, x ∈ tc_nodes s) → v.length + 1 ≤ v3.length →
          tc_rels (tc_dfs s fuel) rels v3 stk3 ≠ none := by
        intro rels
        induction rels with
        | nil =>
          intro v3 stk3 _ _ _ _
          unfold tc_rels
          simp
        | cons r rels ihr =>
          intro v3 stk3 htgs hnd3 hsub3 hlen3
          unfold tc_rels
          dsimp only []
          split
          · exact ihr v3 stk3 (fun r2 h2 => htgs r2 (List.mem_cons_of_mem _ h2))
              hnd3 hsub3 hlen3
          · split
            · rename_i hniv
              cases hcall : tc_dfs s fuel r.target_entity v3 stk3 with
              | none =>
                exfalso
                refine ih r.target_entity v3 stk3
                  (htgs r (List.mem_cons_self r rels)) hniv hnd3 hsub3 ?_ hcall
                omega
              | some res =>
                obtain ⟨oc5, v5, stk5⟩ := res
                obtain ⟨hnd5, hsub5, ex5, hex5⟩ :=
                  tc_dfs_props s fuel r.target_entity v3 stk3 oc5 v5 stk5 hcall
                    (htgs r (List.mem_cons_self r rels)) hniv hnd3 hsub3
                have hlen5 : v.length + 1 ≤ v5.length := by
                  rw [hex5, List.length_append]
                  omega
                cases oc5 with
                | some cyc => simp
                | none =>
                  dsimp only []
                  exact ihr v5 stk5 (fun r2 h2 => htgs r2 (List.mem_cons_of_mem _ h2))
                    hnd5 hsub5 hlen5
            · split
              · simp
              · exact ihr v3 stk3 (fun r2 h2 => htgs r2 (List.mem_cons_of_mem _ h2))
                  hnd3 hsub3 hlen3
      cases hrun : tc_rels (tc_dfs s fuel) (entity.relations.map (fun p => p.2))
          (v ++ [cur]) (stk ++ [cur]) with
      | none =>
        exact absurd hrun (hrels (entity.relations.map (fun p => p.2))
          (v ++ [cur]) (stk ++ [cur]) htg hnd1 hsub1
          (by rw [List.length_append, List.length_singleton]))
      | some res =>
        dsimp only []
        rw [hrun]
        obtain ⟨oc5, v5, stk5⟩ := res
        cases oc5 <;> simp

/-- The root loop of the cycle pass never runs out of fuel. -/
theorem check_circ_loop_no_none (s : Schema) :
    ∀ roots v stk errs, (∀ n ∈ roots, n ∈ tc_nodes s) → v.Nodup →
      (∀ x ∈ v, x ∈ tc_nodes s) →
      check_circ_loop s roots v stk errs ≠ none := by
  intro roots
  induction roots with
  | nil =>
    intro v stk errs _ _ _
    unfold check_circ_loop
    simp
  | cons name rest ih =>
    intro v stk errs hroots hnd hsub
    unfold check_circ_loop
    split
    · exact ih v stk errs (fun n h => hroots n (List.mem_cons_of_mem _ h)) hnd hsub
    · rename_i hnv
      cases hcall : tc_dfs s (tc_fuel s) name v stk with
      | none =>
        exfalso
        refine tc_dfs_no_fuel s (tc_fuel s) name v stk
          (hroots name (List.mem_cons_self name rest)) hnv hnd hsub ?_ hcall
        unfold tc_fuel
        omega
      | some res =>
        obtain ⟨oc, v2, stk2⟩ := res
        obtain ⟨hnd2, hsub2, _⟩ :=
          tc_dfs_props s (tc_fuel s) name v stk oc v2 stk2 hcall
            (hroots name (List.mem_cons_self name rest)) hnv hnd hsub
        cases oc with
        | some cyc =>
          dsimp only []
          exact ih v2 stk2 _ (fun n h => hroots n (List.mem_cons_of_mem _ h)) hnd2 hsub2
        | none =>
          dsimp only []
          exact ih v2 stk2 errs (fun n h => hroots n (List.mem_cons_of_mem _ h)) hnd2 hsub2

/-- `type_check` always completes: the fuel given to the embedded DFS is
always sufficient, so the `Option` layer of the embedding never fires. -/
theorem type_check_total (s : Schema) : (type_check s).isSome = true := by
  unfold type_check
  cases hcirc : check_circular_dependencies s with
  | none =>
    exfalso
    have hcirc2 : check_circ_loop s (s.entities.map (fun e => e.name)) [] [] [] = none :=
      hcirc
    refine check_circ_loop_no_none s (s.entities.map (fun e => e.name)) [] [] [] ?_
      List.nodup_nil (by simp) hcirc2
    intro n hn
    unfold tc_nodes
    rw [List.mem_append]
    exact Or.inl hn
  | some circ => rfl

end Chameleon
